import Mathlib

/-!
# stellar-create-pool: batch submission with retry on partial failure

A shallow embedding of `main.go`: the retry loop `createAndSubmit`, the
timeout resubmission loop `submit`, the result-code inspection
`checkHorizonError`, the sequence derivation `getSequence`, the two chunking
loops of `main`, the flag validation `validateFlags` and the funding amount of
`AccountFunder.CreateTransaction`.

The ledger client and the transaction builder are external. They are modelled
as response functions of the history of calls made so far; the history is the
only state that is threaded through the program, and every call to the outside
is appended to it at the place where the Go code makes the call. Unbounded Go
loops take a fuel argument; running out of fuel is a fault of its own, distinct
from a Go run-time panic.
-/

namespace StellarCreatePool

/-! ## Constants -/

/-- Capacity of the `guard` channel. -/
def WG_MAX : Nat := 25

/-- Upper limit of the `ops` flag. -/
def OPS_PER_TX_MAX : Nat := 100

/-- Chunk size of the inflation phase. -/
def SIGNERS_PER_TX_MAX : Nat := 20

/-- Modulus of Go `uint64` arithmetic. -/
def UINT64_MOD : Nat := 2 ^ 64

/-! ## Data model -/

/-- The type `keypair.Full`: an address and its secret seed. -/
structure Full where
  address : String
  seed : String
deriving DecidableEq, Repr

/-- The Go type `Voters []*keypair.Full`. -/
abbrev Voters := List Full

/-- The type `horizon.TransactionResultCodes`. -/
structure TransactionResultCodes where
  TransactionCode : String
  OperationCodes : List String
deriving DecidableEq, Repr

/-- The fields of `horizon.Problem` the program reads. -/
structure Problem where
  ProblemType : String
  Status : Int
deriving DecidableEq, Repr

/-- A non-nil Go `error`. It is either a `*horizon.Error`, carrying its problem
and what `ResultCodes()` gives for it (`none` when that call reports an error),
or any other error value. A nil `error` is `none : Option GoError`. -/
inductive GoError where
  | horizon (problem : Problem) (resultCodes : Option TransactionResultCodes)
  | other (message : String)
deriving DecidableEq, Repr

/-- The fields of `horizon.TransactionSuccess` the program reads. -/
structure TransactionSuccess where
  Ledger : Int
  Hash : String
deriving DecidableEq, Repr

/-- One call to an external collaborator, with the answer it gave. -/
inductive Event where
  | create (seq : Nat) (dest : Voters) (xdr : String) (notOk : Bool)
  | submitTx (xdr : String) (res : TransactionSuccess) (err : Option GoError)
  | sequenceFor (address : String) (seq : Int) (err : Option GoError)
deriving DecidableEq, Repr

/-- The calls made so far, oldest first. -/
abbrev History := List Event

/-- The methods of `*horizon.Client` the program calls. Each answer may depend
on everything that was called before. -/
structure Client where
  SubmitTransaction : History → String → TransactionSuccess × Option GoError
  SequenceForAccount : History → String → Int × Option GoError

/-- The interface `TransactionCreator`: `CreateTransaction(seq, dest)` gives
the encoded envelope and a flag that is true when no envelope could be built. -/
abbrev TransactionCreator := History → Nat → Voters → String × Bool

/-- Ways in which a run gives no value. -/
inductive Fault where
  | outOfFuel
  | indexOutOfRange
  | nilDereference
deriving DecidableEq, Repr

/-! ## Helpers of `main.go` -/

/-- The function `logErr`: true exactly when the error is not nil (the log
line it writes is not modelled). -/
def logErr (err : Option GoError) : Bool :=
  err.isSome

/-- The function `checkHorizonError`: the result codes of a `*horizon.Error`,
with the flag `notOk` set when the error is of another kind or its codes cannot
be extracted. -/
def checkHorizonError : Option GoError → Option TransactionResultCodes × Bool
  | some (GoError.horizon _ (some codes)) => (some codes, false)
  | some (GoError.horizon _ none) => (none, true)
  | some (GoError.other _) => (none, true)
  | none => (none, true)

/-- The function `submit`: send the envelope, and send it again for as long as
the answer is a `*horizon.Error` with status 504. -/
def submit (client : Client) :
    Nat → History → String → Except Fault (TransactionSuccess × Option GoError) × History
  | 0, h, _ => (Except.error Fault.outOfFuel, h)
  | fuel + 1, h, xdr =>
    let r := client.SubmitTransaction h xdr
    let h1 := h ++ [Event.submitTx xdr r.1 r.2]
    match r.2 with
    | some (GoError.horizon problem _) =>
      if problem.Status = 504 then submit client fuel h1 xdr
      else (Except.ok (r.1, r.2), h1)
    | _ => (Except.ok (r.1, r.2), h1)

/-- The function `getSequence`: the sequence reported for the account plus one,
as `uint64`. -/
def getSequence (client : Client) (h : History) (address : String) :
    (Nat × Option GoError) × History :=
  let r := client.SequenceForAccount h address
  let h1 := h ++ [Event.sequenceFor address r.1 r.2]
  if r.2.isSome ∨ r.1 < 0 then ((0, r.2), h1)
  else (((r.1.toNat % UINT64_MOD + 1) % UINT64_MOD, none), h1)

/-- The loop over `codes.OperationCodes` inside `createAndSubmit`: `i` is the
index of the next code, `tmp` the slice built so far. Indexing `pairs[i]`
outside the slice is a Go panic. -/
def keepSucceeded (pairs : Voters) : Nat → List String → Voters → Except Fault Voters
  | _, [], tmp => Except.ok tmp
  | i, c :: cs, tmp =>
    if c = "op_success" then
      match pairs[i]? with
      | some p => keepSucceeded pairs (i + 1) cs (tmp ++ [p])
      | none => Except.error Fault.indexOutOfRange
    else keepSucceeded pairs (i + 1) cs tmp

/-- The function `createAndSubmit`: build, submit, and on a rejection caused by
the operations try again with the operations reported successful and the next
sequence number. The counter `count` only feeds a log line and is left out. -/
def createAndSubmit (c : Client) (src : TransactionCreator) (submitFuel : Nat) :
    Nat → History → Nat → Voters → Except Fault Voters × History
  | 0, h, _, _ => (Except.error Fault.outOfFuel, h)
  | fuel + 1, h, seq, pairs =>
    let b := src h seq pairs
    let h1 := h ++ [Event.create seq pairs b.1 b.2]
    if b.2 then (Except.ok [], h1)
    else
      match submit c submitFuel h1 b.1 with
      | (Except.error f, h2) => (Except.error f, h2)
      | (Except.ok (_, err), h2) =>
        if logErr err then
          match checkHorizonError err with
          | (_, true) => (Except.ok [], h2)
          | (none, false) => (Except.error Fault.nilDereference, h2)
          | (some codes, false) =>
            if codes.TransactionCode ≠ "tx_failed" then (Except.ok [], h2)
            else
              match keepSucceeded pairs 0 codes.OperationCodes [] with
              | Except.error f => (Except.error f, h2)
              | Except.ok tmp => createAndSubmit c src submitFuel fuel h2 ((seq + 1) % UINT64_MOD) tmp
        else (Except.ok pairs, h2)

/-! ## The chunking loops of `main` -/

/-- The slice expression `pairs[a:b]` for `a ≤ b ≤ len(pairs)`. -/
def slice (pairs : Voters) (a b : Nat) : Voters :=
  (pairs.take b).drop a

/-- The funding loop of `main`, reduced to its index arithmetic: the bounds
`(a, b)` of the slices handed to `createAndSubmit`, in order, starting from
`processed`. The body of the loop is taken to return. -/
def fundingLoop (numOps len : Nat) : Nat → Nat → Option (List (Nat × Nat))
  | 0, processed => if processed < len then none else some []
  | fuel + 1, processed =>
    if processed < len then
      let a := processed
      let b := if processed + numOps > len then len else processed + numOps
      (fundingLoop numOps len fuel b).map (fun rest => (a, b) :: rest)
    else some []

/-- The inflation loop of `main`, reduced to its index arithmetic: the bounds
`(a, b)` of the slices handed to the goroutines, in order, starting from `a`. -/
def inflationLoop (numAccounts : Nat) : Nat → Nat → Option (List (Nat × Nat))
  | 0, a => if a < numAccounts then none else some []
  | fuel + 1, a =>
    if a < numAccounts then
      let b := if a + SIGNERS_PER_TX_MAX > numAccounts then numAccounts else a + SIGNERS_PER_TX_MAX
      (inflationLoop numAccounts fuel (a + SIGNERS_PER_TX_MAX)).map (fun rest => (a, b) :: rest)
    else some []

/-- The chunks of the funding phase for the flag value `numOps`. -/
def fundingChunks (numOps : Nat) (pairs : Voters) (fuel : Nat) : Option (List Voters) :=
  (fundingLoop numOps pairs.length fuel 0).map (fun rs => rs.map (fun r => slice pairs r.1 r.2))

/-- The chunks of the inflation phase; `numAccounts` is `len(pairs)` there. -/
def inflationChunks (pairs : Voters) (fuel : Nat) : Option (List Voters) :=
  (inflationLoop pairs.length fuel 0).map (fun rs => rs.map (fun r => slice pairs r.1 r.2))

/-! ## Flags and the funding amount -/

/-- Go `int` on a 64-bit platform: the value of an integer expression, wrapped
into the range from -2^63 to 2^63 - 1. -/
def wrapInt (x : Int) : Int :=
  (x + 2 ^ 63) % 2 ^ 64 - 2 ^ 63

/-- The package-level flag variables that `validateFlags` reads and writes. -/
structure Flags where
  numAccounts : Int
  numOps : Int
  minBal : Int
  maxBal : Int
  funderSec : String
  useSink : Bool
  onlyGenerate : Bool
deriving DecidableEq, Repr

/-- The function `validateFlags`: the flags after its assignments, or `none`
when it ends the process through `log.Fatal`. -/
def validateFlags (f : Flags) : Option Flags :=
  let numAccounts := if f.numAccounts < 0 then 0 else f.numAccounts
  let numOps := if f.numOps < 1 then 1 else f.numOps
  let numOps := if numOps > (OPS_PER_TX_MAX : Int) then (OPS_PER_TX_MAX : Int) else numOps
  let minBal := if f.minBal < 10000000 then 10000000 else f.minBal
  let maxBal := if f.maxBal < 10000001 then 10000001 else f.maxBal
  let maxBal := if minBal = maxBal then wrapInt (minBal + 1) else maxBal
  let swapped := if maxBal < minBal then (maxBal, minBal) else (minBal, maxBal)
  if f.funderSec ≠ "" ∧ (f.funderSec.get 0 ≠ 'S' ∨ f.funderSec.utf8ByteSize < 56) then none
  else if f.funderSec = "" ∧ f.useSink = false ∧ f.onlyGenerate = false then none
  else some ⟨numAccounts, numOps, swapped.1, swapped.2, f.funderSec, f.useSink, f.onlyGenerate⟩

/-- The type `AccountFunder`. -/
structure AccountFunder where
  Min : Int
  Max : Int
  Pub : String
  Sec : String
  Seq : Nat
deriving DecidableEq, Repr

/-- The funder `main` builds from the validated flags. -/
def mainFunder (f : Flags) (funderPub : String) : AccountFunder :=
  ⟨f.minBal, f.maxBal, funderPub, f.funderSec, 0⟩

/-- The library function `rand.Intn(n)`: it panics (`none`) for `n ≤ 0` and
otherwise gives a value from 0 up to `n - 1`; `raw` is the number the generator
draws. -/
def randIntn (raw : Nat) (n : Int) : Option Int :=
  if n ≤ 0 then none else some ((raw : Int) % n)

/-- The integer expression `m.Min + rand.Intn(m.Max - m.Min)` that
`AccountFunder.CreateTransaction` evaluates for each destination: the initial
balance in stroops, before the conversion to `float64`. -/
def AccountFunder.initialBalance (m : AccountFunder) (raw : Nat) : Option Int :=
  (randIntn raw (wrapInt (m.Max - m.Min))).map (fun r => wrapInt (m.Min + r))

/-! ## Reading results and histories -/

/-- The indices the result-code interpreter of the specification keeps: those
whose operation code is the success marker, in increasing order. -/
def survivingIndices (codes : List String) : List Nat :=
  (List.range codes.length).filter (fun i => codes[i]? = some "op_success")

/-- The entities at the surviving indices, in their original order. -/
def survivors (pairs : Voters) (codes : List String) : Voters :=
  (survivingIndices codes).filterMap (fun i => pairs[i]?)

/-- The error is a `*horizon.Error` with status 504. -/
def isTimeout : Option GoError → Bool
  | some (GoError.horizon problem _) => decide (problem.Status = 504)
  | _ => false

/-- What one pass of the loop of `createAndSubmit` decides from the answer to
its submission: stop with an outcome, or go on with a new entity list. -/
def verdict (pairs : Voters) : Option GoError → Except Fault Voters ⊕ Voters
  | none => Sum.inl (Except.ok pairs)
  | some (GoError.horizon _ (some codes)) =>
    if codes.TransactionCode = "tx_failed" then
      match keepSucceeded pairs 0 codes.OperationCodes [] with
      | Except.ok tmp => Sum.inr tmp
      | Except.error f => Sum.inl (Except.error f)
    else Sum.inl (Except.ok [])
  | some (GoError.horizon _ none) => Sum.inl (Except.ok [])
  | some (GoError.other _) => Sum.inl (Except.ok [])

/-- One pass of the loop of `createAndSubmit`, as read off a history: the
arguments the builder was called with and the answer to the last submission
made before the builder was called again (`none` when nothing was submitted). -/
structure Attempt where
  seq : Nat
  dest : Voters
  answer : Option (Option GoError)
deriving DecidableEq, Repr

/-- The answer to the last submission at the head of a history, before the next
call to the builder. -/
def answerOf : List Event → Option (Option GoError)
  | Event.submitTx _ _ err :: rest =>
    match answerOf rest with
    | some a => some a
    | none => some err
  | _ => none

/-- The builder calls of a history, oldest first, each with the answer to its
last submission. -/
def attempts : List Event → List Attempt
  | [] => []
  | Event.create seq dest _ _ :: rest => ⟨seq, dest, answerOf rest⟩ :: attempts rest
  | _ :: rest => attempts rest

/-- The shape of the events one run of `createAndSubmit` appends, with the
outcome of the run. -/
inductive RunTrace : Nat → Voters → List Event → Except Fault Voters → Prop where
  | noFuel (seq : Nat) (pairs : Voters) :
    RunTrace seq pairs [] (Except.error Fault.outOfFuel)
  | refused (seq : Nat) (pairs : Voters) (xdr : String) :
    RunTrace seq pairs [Event.create seq pairs xdr true] (Except.ok [])
  | submitFault (seq : Nat) (pairs : Voters) (xdr : String) (subs : List Event) (f : Fault) :
    (∀ e ∈ subs, ∃ res err, e = Event.submitTx xdr res err ∧ isTimeout err = true) →
    RunTrace seq pairs (Event.create seq pairs xdr false :: subs) (Except.error f)
  | stop (seq : Nat) (pairs : Voters) (xdr : String) (subs : List Event)
      (res : TransactionSuccess) (err : Option GoError) (r : Except Fault Voters) :
    (∀ e ∈ subs, ∃ res err, e = Event.submitTx xdr res err) →
    subs.getLast? = some (Event.submitTx xdr res err) →
    isTimeout err = false →
    verdict pairs err = Sum.inl r →
    RunTrace seq pairs (Event.create seq pairs xdr false :: subs) r
  | retry (seq : Nat) (pairs : Voters) (xdr : String) (subs : List Event)
      (res : TransactionSuccess) (err : Option GoError) (tmp : Voters) (rest : List Event)
      (r : Except Fault Voters) :
    (∀ e ∈ subs, ∃ res err, e = Event.submitTx xdr res err) →
    subs.getLast? = some (Event.submitTx xdr res err) →
    isTimeout err = false →
    verdict pairs err = Sum.inr tmp →
    RunTrace ((seq + 1) % UINT64_MOD) tmp rest r →
    RunTrace seq pairs (Event.create seq pairs xdr false :: (subs ++ rest)) r

/-- The history after `k` submissions in a row of one envelope. -/
def resubmitted (c : Client) (xdr : String) : Nat → History → History
  | 0, h => h
  | k + 1, h =>
    resubmitted c xdr k
      (h ++ [Event.submitTx xdr (c.SubmitTransaction h xdr).1 (c.SubmitTransaction h xdr).2])

/-- The entity list of the latest builder call of a history: the operations of
the envelope in flight. -/
def lastDest (h : History) : Voters :=
  h.foldl (fun acc e =>
    match e with
    | Event.create _ dest _ _ => dest
    | _ => acc) []

/-! ## Concrete collaborators for the examples -/

/-- First entity of the examples. -/
def alice : Full := ⟨"GA", "SA"⟩

/-- Second entity of the examples. -/
def bob : Full := ⟨"GB", "SB"⟩

/-- Third entity of the examples. -/
def carol : Full := ⟨"GC", "SC"⟩

/-- The entity list of the examples. -/
def demoPairs : Voters := [alice, bob, carol]

/-- A builder that builds for every entity list, the empty one included. -/
def plainCreator : TransactionCreator :=
  fun _ _ dest => (if dest.isEmpty then "empty" else "tx", false)

/-- A builder that refuses the empty entity list, as the length guard of
`InflationSetter.CreateTransaction` does. -/
def guardedCreator : TransactionCreator :=
  fun _ _ dest => if dest.length ≤ 0 then ("", true) else ("tx", false)

/-- A structured rejection with the given result codes. -/
def rejection (tx : String) (ops : List String) : Option GoError :=
  some (GoError.horizon ⟨"transaction_failed", 400⟩ (some ⟨tx, ops⟩))

/-- A client whose first answer rejects the second of three operations and
which accepts afterwards. -/
def secondFailsClient : Client where
  SubmitTransaction := fun h _ =>
    if h.length ≤ 1 then
      (⟨0, ""⟩, rejection "tx_failed" ["op_success", "op_underfunded", "op_success"])
    else (⟨7, "hash"⟩, none)
  SequenceForAccount := fun _ _ => (41, none)

/-- A client that rejects every submission for a bad sequence number. -/
def badSeqClient : Client where
  SubmitTransaction := fun _ _ => (⟨0, ""⟩, rejection "tx_bad_seq" [])
  SequenceForAccount := fun _ _ => (41, none)

/-- A client that reports the sequence -1 without an error. -/
def negativeSeqClient : Client where
  SubmitTransaction := fun _ _ => (⟨0, ""⟩, none)
  SequenceForAccount := fun _ _ => (-1, none)

/-- A client that rejects the only operation of a transaction, and rejects a
transaction without operations for having none. -/
def underfundedClient : Client where
  SubmitTransaction := fun _ xdr =>
    if xdr = "empty" then (⟨0, ""⟩, rejection "tx_missing_operation" [])
    else (⟨0, ""⟩, rejection "tx_failed" ["op_underfunded"])
  SequenceForAccount := fun _ _ => (41, none)

/-- A gateway timeout. -/
def gatewayTimeout : Option GoError :=
  some (GoError.horizon ⟨"timeout", 504⟩ none)

/-- A client that times out twice and accepts at the third submission. -/
def timeoutTwiceClient : Client where
  SubmitTransaction := fun h _ =>
    if h.length < 2 then (⟨0, ""⟩, gatewayTimeout) else (⟨7, "hash"⟩, none)
  SequenceForAccount := fun _ _ => (41, none)

/-- A client for which every operation on `bob` fails and every other one
succeeds, whatever else is in the transaction. -/
def bobFailsClient : Client where
  SubmitTransaction := fun h _ =>
    if (lastDest h).any (fun p => decide (p = bob)) then
      (⟨0, ""⟩, rejection "tx_failed"
        ((lastDest h).map (fun p => if p = bob then "op_underfunded" else "op_success")))
    else (⟨7, "hash"⟩, none)
  SequenceForAccount := fun _ _ => (41, none)

/-- A secret seed of 56 characters starting with `S`. -/
def demoSeed : String :=
  "SAAAAAAAAAAAAAAAAAAAAAAAAAAAAAAAAAAAAAAAAAAAAAAAAAAAAAAA"

/-- The flags `-min` and `-max` both at the largest `int`, the others at their
defaults, with a well-formed secret seed. -/
def maxIntFlags : Flags :=
  ⟨10, 100, 2 ^ 63 - 1, 2 ^ 63 - 1, demoSeed, false, false⟩

/-! # Theorems -/

/-! ## Lemmas on the loops -/

theorem keepSucceeded_from (pairs : Voters) (cs : List String) :
    ∀ (i : Nat) (tmp : Voters), i + cs.length ≤ pairs.length →
      keepSucceeded pairs i cs tmp =
        Except.ok (tmp ++ ((List.range cs.length).filter
          (fun j => cs[j]? = some "op_success")).filterMap (fun j => pairs[i + j]?)) := by
  induction cs with
  | nil => intro i tmp _; simp [keepSucceeded]
  | cons c cs ih =>
    intro i tmp hlen
    have hi : i < pairs.length := by simp at hlen; omega
    have hrest : (i + 1) + cs.length ≤ pairs.length := by simp at hlen; omega
    have hshift : ((List.range cs.length).filter
          (fun j => cs[j]? = some "op_success")).filterMap (fun j => pairs[i + 1 + j]?) =
        (((List.range cs.length).map Nat.succ).filter
          (fun j => (c :: cs)[j]? = some "op_success")).filterMap (fun j => pairs[i + j]?) := by
      rw [List.filter_map, List.filterMap_map]
      have hp : ((fun j => decide ((c :: cs)[j]? = some "op_success")) ∘ Nat.succ) =
          (fun j => decide (cs[j]? = some "op_success")) := by
        funext j
        simp [Function.comp]
      have hg : ((fun j => pairs[i + j]?) ∘ Nat.succ) = (fun j => pairs[i + 1 + j]?) := by
        funext j
        simp only [Function.comp, Nat.succ_eq_add_one]
        congr 1
        omega
      rw [hp, hg]
    rw [List.length_cons, List.range_succ_eq_map, List.filter_cons]
    by_cases hc : c = "op_success"
    · simp only [keepSucceeded, hc, if_true, List.getElem?_eq_getElem hi]
      rw [ih (i + 1) _ hrest, hshift]
      simp [hc, List.getElem?_eq_getElem hi]
    · simp only [keepSucceeded, hc, if_false]
      rw [ih (i + 1) _ hrest, hshift]
      simp [hc]

theorem keepSucceeded_survivors (pairs : Voters) (codes : List String)
    (hlen : codes.length ≤ pairs.length) :
    keepSucceeded pairs 0 codes [] = Except.ok (survivors pairs codes) := by
  rw [keepSucceeded_from pairs codes 0 [] (by omega)]
  simp [survivors, survivingIndices]

theorem submit_succ (c : Client) (fuel : Nat) (h : History) (xdr : String) :
    submit c (fuel + 1) h xdr =
      if isTimeout (c.SubmitTransaction h xdr).2 then
        submit c fuel
          (h ++ [Event.submitTx xdr (c.SubmitTransaction h xdr).1 (c.SubmitTransaction h xdr).2]) xdr
      else
        (Except.ok ((c.SubmitTransaction h xdr).1, (c.SubmitTransaction h xdr).2),
          h ++ [Event.submitTx xdr (c.SubmitTransaction h xdr).1 (c.SubmitTransaction h xdr).2]) := by
  rw [submit]
  rcases hr : (c.SubmitTransaction h xdr).2 with _ | ⟨problem, rc⟩ | msg
  · simp [isTimeout]
  · by_cases hst : problem.Status = 504 <;> simp [isTimeout, hst]
  · simp [isTimeout]

/-- What `submit` adds to the history: only submissions of the envelope it was
given, the last of which carries the answer it returns; that answer is never a
timeout. -/
theorem submit_events (c : Client) (xdr : String) :
    ∀ (fuel : Nat) (h : History), ∃ evs : List Event,
      (submit c fuel h xdr).2 = h ++ evs ∧
      (∀ e ∈ evs, ∃ res err, e = Event.submitTx xdr res err) ∧
      (∀ res err, (submit c fuel h xdr).1 = Except.ok (res, err) →
        evs.getLast? = some (Event.submitTx xdr res err) ∧ isTimeout err = false) ∧
      (∀ f, (submit c fuel h xdr).1 = Except.error f →
        ∀ e ∈ evs, ∃ res err, e = Event.submitTx xdr res err ∧ isTimeout err = true) := by
  intro fuel
  induction fuel with
  | zero =>
    intro h
    exact ⟨[], by simp [submit], by simp, by simp [submit], by simp⟩
  | succ fuel ih =>
    intro h
    rw [submit_succ]
    by_cases ht : isTimeout (c.SubmitTransaction h xdr).2 = true
    · simp only [ht, if_true]
      obtain ⟨evs, h1, h2, h3, h4⟩ := ih
        (h ++ [Event.submitTx xdr (c.SubmitTransaction h xdr).1 (c.SubmitTransaction h xdr).2])
      refine ⟨Event.submitTx xdr (c.SubmitTransaction h xdr).1 (c.SubmitTransaction h xdr).2 :: evs,
        by simp [h1], ?_, ?_, ?_⟩
      · intro e he
        rcases List.mem_cons.mp he with rfl | he
        · exact ⟨_, _, rfl⟩
        · exact h2 e he
      · intro res err hok
        obtain ⟨hl, hne⟩ := h3 res err hok
        refine ⟨?_, hne⟩
        cases evs with
        | nil => simp at hl
        | cons e es => simpa [List.getLast?_cons_cons] using hl
      · intro f hf e he
        rcases List.mem_cons.mp he with rfl | he
        · exact ⟨_, _, rfl, ht⟩
        · exact h4 f hf e he
    · simp only [ht]
      refine ⟨[Event.submitTx xdr (c.SubmitTransaction h xdr).1 (c.SubmitTransaction h xdr).2],
        by simp, by simp, ?_, by simp⟩
      intro res err hok
      simp only [Bool.false_eq_true, if_false, Except.ok.injEq, Prod.mk.injEq] at hok
      obtain ⟨rfl, rfl⟩ := hok
      simp at ht
      simp [ht]

theorem createAndSubmit_refused (c : Client) (src : TransactionCreator) (sf fuel : Nat)
    (h : History) (seq : Nat) (pairs : Voters) (hb : (src h seq pairs).2 = true) :
    createAndSubmit c src sf (fuel + 1) h seq pairs =
      (Except.ok [], h ++ [Event.create seq pairs (src h seq pairs).1 true]) := by
  rw [createAndSubmit]
  simp [hb]

theorem createAndSubmit_fault (c : Client) (src : TransactionCreator) (sf fuel : Nat)
    (h : History) (seq : Nat) (pairs : Voters) (f : Fault) (h2 : History)
    (hb : (src h seq pairs).2 = false)
    (hs : submit c sf (h ++ [Event.create seq pairs (src h seq pairs).1 false])
      (src h seq pairs).1 = (Except.error f, h2)) :
    createAndSubmit c src sf (fuel + 1) h seq pairs = (Except.error f, h2) := by
  rw [createAndSubmit]
  simp [hb, hs]

theorem createAndSubmit_answered (c : Client) (src : TransactionCreator) (sf fuel : Nat)
    (h : History) (seq : Nat) (pairs : Voters) (res : TransactionSuccess)
    (err : Option GoError) (h2 : History)
    (hb : (src h seq pairs).2 = false)
    (hs : submit c sf (h ++ [Event.create seq pairs (src h seq pairs).1 false])
      (src h seq pairs).1 = (Except.ok (res, err), h2)) :
    createAndSubmit c src sf (fuel + 1) h seq pairs =
      match verdict pairs err with
      | Sum.inl r => (r, h2)
      | Sum.inr tmp => createAndSubmit c src sf fuel h2 ((seq + 1) % UINT64_MOD) tmp := by
  rw [createAndSubmit]
  simp only [hb, hs]
  rcases err with _ | ⟨problem, _ | codes⟩ | msg
  · simp [logErr, verdict]
  · simp [logErr, verdict, checkHorizonError]
  · by_cases htx : codes.TransactionCode = "tx_failed"
    · cases hk : keepSucceeded pairs 0 codes.OperationCodes [] <;>
        simp [logErr, verdict, checkHorizonError, htx, hk]
    · simp [logErr, verdict, checkHorizonError, htx]
  · simp [logErr, verdict, checkHorizonError]

/-- Every run of `createAndSubmit` extends the history by a trace of the shape
`RunTrace`. -/
theorem createAndSubmit_trace (c : Client) (src : TransactionCreator) (sf : Nat) :
    ∀ (fuel : Nat) (h : History) (seq : Nat) (pairs : Voters), ∃ evs : List Event,
      (createAndSubmit c src sf fuel h seq pairs).2 = h ++ evs ∧
      RunTrace seq pairs evs (createAndSubmit c src sf fuel h seq pairs).1 := by
  intro fuel
  induction fuel with
  | zero =>
    intro h seq pairs
    exact ⟨[], by simp [createAndSubmit], by simpa [createAndSubmit] using RunTrace.noFuel seq pairs⟩
  | succ fuel ih =>
    intro h seq pairs
    by_cases hb : (src h seq pairs).2 = true
    · rw [createAndSubmit_refused c src sf fuel h seq pairs hb]
      exact ⟨_, rfl, RunTrace.refused seq pairs _⟩
    · have hb : (src h seq pairs).2 = false := by simpa using hb
      obtain ⟨subs, hsub, hall, hlast, hflt⟩ := submit_events c (src h seq pairs).1 sf
        (h ++ [Event.create seq pairs (src h seq pairs).1 false])
      rcases hs : submit c sf (h ++ [Event.create seq pairs (src h seq pairs).1 false])
        (src h seq pairs).1 with ⟨_ | ⟨res, err⟩, h2⟩
      · rename_i f
        rw [createAndSubmit_fault c src sf fuel h seq pairs f h2 hb hs]
        rw [hs] at hsub hflt
        simp only at hsub
        exact ⟨_ :: subs, by simp [hsub], RunTrace.submitFault seq pairs _ subs f (hflt f rfl)⟩
      · rw [createAndSubmit_answered c src sf fuel h seq pairs res err h2 hb hs]
        rw [hs] at hsub hlast
        simp only at hsub
        obtain ⟨hl, hnt⟩ := hlast res err rfl
        rcases hv : verdict pairs err with r | tmp
        · exact ⟨_ :: subs, by simp [hsub], RunTrace.stop seq pairs _ subs res err r hall hl hnt hv⟩
        · obtain ⟨rest, hrest, htr⟩ := ih h2 ((seq + 1) % UINT64_MOD) tmp
          refine ⟨Event.create seq pairs (src h seq pairs).1 false :: (subs ++ rest), ?_, ?_⟩
          · simp only [hrest]
            rw [hsub]
            simp
          · exact RunTrace.retry seq pairs _ subs res err tmp rest _ hall hl hnt hv htr

/-- With fuel left, the first thing a run does is to call the builder with the
sequence and the entity list it was given. -/
theorem createAndSubmit_first_event (c : Client) (src : TransactionCreator) (sf fuel : Nat)
    (h : History) (seq : Nat) (pairs : Voters) :
    ∃ rest : List Event, (createAndSubmit c src sf (fuel + 1) h seq pairs).2 =
      h ++ Event.create seq pairs (src h seq pairs).1 (src h seq pairs).2 :: rest := by
  by_cases hb : (src h seq pairs).2 = true
  · rw [createAndSubmit_refused c src sf fuel h seq pairs hb, hb]
    exact ⟨[], rfl⟩
  · have hb : (src h seq pairs).2 = false := by simpa using hb
    obtain ⟨subs, hsub, -, -, -⟩ := submit_events c (src h seq pairs).1 sf
      (h ++ [Event.create seq pairs (src h seq pairs).1 false])
    rcases hs : submit c sf (h ++ [Event.create seq pairs (src h seq pairs).1 false])
      (src h seq pairs).1 with ⟨_ | ⟨res, err⟩, h2⟩
    · rename_i f
      rw [createAndSubmit_fault c src sf fuel h seq pairs f h2 hb hs, hb]
      rw [hs] at hsub
      exact ⟨subs, by simpa using hsub⟩
    · rw [createAndSubmit_answered c src sf fuel h seq pairs res err h2 hb hs, hb]
      rw [hs] at hsub
      simp only at hsub
      rcases hv : verdict pairs err with r | tmp
      · exact ⟨subs, by simpa using hsub⟩
      · obtain ⟨rest, hrest, -⟩ := createAndSubmit_trace c src sf fuel h2 ((seq + 1) % UINT64_MOD) tmp
        refine ⟨subs ++ rest, ?_⟩
        simp only [hrest]
        rw [hsub]
        simp

/-! ## C1: result interpretation -/

/-- C1. When the builder succeeds and the submission comes back rejected with
transaction code "tx_failed" and no more operation codes than entities, the
loop inside `createAndSubmit` keeps exactly the entities at the indices whose
operation code is "op_success", in their original order; the run continues as
the run on that list with the next sequence number, and the next call to the
builder is made with that list. -/
theorem createAndSubmit_keeps_success_indices (c : Client) (src : TransactionCreator)
    (sf fuel : Nat) (h : History) (seq : Nat) (pairs : Voters) (xdr : String)
    (res : TransactionSuccess) (problem : Problem) (codes : TransactionResultCodes)
    (h2 : History)
    (hb : src h seq pairs = (xdr, false))
    (hs : submit c sf (h ++ [Event.create seq pairs xdr false]) xdr =
      (Except.ok (res, some (GoError.horizon problem (some codes))), h2))
    (htx : codes.TransactionCode = "tx_failed")
    (hlen : codes.OperationCodes.length ≤ pairs.length) :
    keepSucceeded pairs 0 codes.OperationCodes [] =
        Except.ok (((List.range codes.OperationCodes.length).filter
          (fun i => codes.OperationCodes[i]? = some "op_success")).filterMap
            (fun i => pairs[i]?)) ∧
      createAndSubmit c src sf (fuel + 1) h seq pairs =
        createAndSubmit c src sf fuel h2 ((seq + 1) % UINT64_MOD)
          (survivors pairs codes.OperationCodes) ∧
      ∃ xdr2 notOk2 rest, (createAndSubmit c src sf (fuel + 2) h seq pairs).2 =
        h2 ++ Event.create ((seq + 1) % UINT64_MOD) (survivors pairs codes.OperationCodes)
          xdr2 notOk2 :: rest := by
  have hk := keepSucceeded_survivors pairs codes.OperationCodes hlen
  have hb2 : (src h seq pairs).2 = false := by rw [hb]
  have hb1 : (src h seq pairs).1 = xdr := by rw [hb]
  have hv : verdict pairs (some (GoError.horizon problem (some codes))) =
      Sum.inr (survivors pairs codes.OperationCodes) := by
    simp [verdict, htx, hk]
  have hstep : ∀ fuel, createAndSubmit c src sf (fuel + 1) h seq pairs =
      createAndSubmit c src sf fuel h2 ((seq + 1) % UINT64_MOD)
        (survivors pairs codes.OperationCodes) := by
    intro fuel
    rw [createAndSubmit_answered c src sf fuel h seq pairs res _ h2 hb2 (by rw [hb1]; exact hs), hv]
  refine ⟨?_, hstep fuel, ?_⟩
  · rw [hk]; rfl
  · rw [hstep (fuel + 1)]
    obtain ⟨rest, hrest⟩ := createAndSubmit_first_event c src sf fuel h2
      ((seq + 1) % UINT64_MOD) (survivors pairs codes.OperationCodes)
    exact ⟨_, _, rest, hrest⟩

/-- C1 at the example of the specification: codes success, underfunded, success
keep the entities at indices 0 and 2. -/
theorem createAndSubmit_keeps_success_indices_witness :
    survivingIndices ["op_success", "op_underfunded", "op_success"] = [0, 2] ∧
    survivors demoPairs ["op_success", "op_underfunded", "op_success"] = [alice, carol] ∧
    createAndSubmit secondFailsClient plainCreator 1 2 [] 5 demoPairs =
      createAndSubmit secondFailsClient plainCreator 1 1
        [Event.create 5 demoPairs "tx" false,
          Event.submitTx "tx" ⟨0, ""⟩
            (rejection "tx_failed" ["op_success", "op_underfunded", "op_success"])]
        6 [alice, carol] :=
  ⟨by decide, by decide,
    (createAndSubmit_keeps_success_indices secondFailsClient plainCreator 1 1 [] 5 demoPairs "tx"
      ⟨0, ""⟩ ⟨"transaction_failed", 400⟩
      ⟨"tx_failed", ["op_success", "op_underfunded", "op_success"]⟩
      [Event.create 5 demoPairs "tx" false,
        Event.submitTx "tx" ⟨0, ""⟩
          (rejection "tx_failed" ["op_success", "op_underfunded", "op_success"])]
      (by decide) (by rfl) (by decide) (by decide)).2.1⟩

/-! ## C2: abort on a failure that is not partial -/

/-- C2. When the submission comes back with an error that is not a
`*horizon.Error`, or with a `*horizon.Error` whose transaction code is not
"tx_failed" (or whose codes cannot be read), `createAndSubmit` returns the
empty list and its history is the one it had when `submit` returned: no builder
call and no submission is made after it. -/
theorem createAndSubmit_aborts_on_other_failure (c : Client) (src : TransactionCreator)
    (sf fuel : Nat) (h : History) (seq : Nat) (pairs : Voters) (xdr : String)
    (res : TransactionSuccess) (err : GoError) (h2 : History)
    (hb : src h seq pairs = (xdr, false))
    (hs : submit c sf (h ++ [Event.create seq pairs xdr false]) xdr =
      (Except.ok (res, some err), h2))
    (hkind : (∃ msg, err = GoError.other msg) ∨
      (∃ problem, err = GoError.horizon problem none) ∨
      (∃ problem codes, err = GoError.horizon problem (some codes) ∧
        codes.TransactionCode ≠ "tx_failed")) :
    createAndSubmit c src sf (fuel + 1) h seq pairs = (Except.ok [], h2) := by
  have hb2 : (src h seq pairs).2 = false := by rw [hb]
  have hb1 : (src h seq pairs).1 = xdr := by rw [hb]
  rw [createAndSubmit_answered c src sf fuel h seq pairs res _ h2 hb2 (by rw [hb1]; exact hs)]
  rcases hkind with ⟨msg, rfl⟩ | ⟨problem, rfl⟩ | ⟨problem, codes, rfl, hne⟩
  · simp [verdict]
  · simp [verdict]
  · simp [verdict, hne]

/-- C2 on a rejection for a bad sequence number: one builder call, one
submission, empty result. -/
theorem createAndSubmit_aborts_on_other_failure_witness :
    createAndSubmit badSeqClient plainCreator 1 3 [] 5 demoPairs =
      (Except.ok [], [Event.create 5 demoPairs "tx" false,
        Event.submitTx "tx" ⟨0, ""⟩ (rejection "tx_bad_seq" [])]) :=
  createAndSubmit_aborts_on_other_failure badSeqClient plainCreator 1 2 [] 5 demoPairs "tx"
    ⟨0, ""⟩ (GoError.horizon ⟨"transaction_failed", 400⟩ (some ⟨"tx_bad_seq", []⟩))
    [Event.create 5 demoPairs "tx" false, Event.submitTx "tx" ⟨0, ""⟩ (rejection "tx_bad_seq" [])]
    (by decide) (by rfl)
    (Or.inr (Or.inr ⟨_, _, rfl, by decide⟩))

/-! ## C3: sequence derivation -/

/-- C3. On a reported sequence of -1 with no client error `getSequence` returns
sequence 0 together with a nil error: the guard `seq < 0` is taken, but the
error it returns is the client's, which is nil. -/
theorem getSequence_negative_returns_zero_and_nil :
    getSequence negativeSeqClient [] "GA" =
      ((0, none), [Event.sequenceFor "GA" (-1) none]) := by
  decide

/-! ## C4: partitioning -/

theorem drop_take_append_drop (l : Voters) (a b : Nat) (hab : a ≤ b) (hb : b ≤ l.length) :
    slice l a b ++ l.drop b = l.drop a := by
  unfold slice
  have h1 : a ≤ (l.take b).length := by simp; omega
  rw [← List.drop_append_of_le_length h1, List.take_append_drop]

theorem slice_length (l : Voters) (a b : Nat) (hb : b ≤ l.length) :
    (slice l a b).length = b - a := by
  unfold slice
  simp
  omega

theorem fundingLoop_done (numOps len : Nat) :
    ∀ (fuel processed : Nat), len ≤ processed → fundingLoop numOps len fuel processed = some [] := by
  intro fuel processed hp
  cases fuel <;> simp [fundingLoop, Nat.not_lt.mpr hp]

theorem inflationLoop_done (numAccounts : Nat) :
    ∀ (fuel a : Nat), numAccounts ≤ a → inflationLoop numAccounts fuel a = some [] := by
  intro fuel a hp
  cases fuel <;> simp [inflationLoop, Nat.not_lt.mpr hp]

/-- The inflation loop visits the same bounds as the funding loop run with chunk
size `SIGNERS_PER_TX_MAX`. -/
theorem inflationLoop_eq_fundingLoop (numAccounts : Nat) :
    ∀ (fuel a : Nat),
      inflationLoop numAccounts fuel a = fundingLoop SIGNERS_PER_TX_MAX numAccounts fuel a := by
  intro fuel
  induction fuel with
  | zero => intro a; simp [inflationLoop, fundingLoop]
  | succ fuel ih =>
    intro a
    simp only [inflationLoop, fundingLoop]
    by_cases ha : a < numAccounts
    · simp only [ha, if_true]
      by_cases hov : a + SIGNERS_PER_TX_MAX > numAccounts
      · simp only [hov, if_true]
        rw [inflationLoop_done numAccounts fuel _ (by omega),
          fundingLoop_done SIGNERS_PER_TX_MAX numAccounts fuel _ (le_refl _)]
      · simp only [hov, if_false]
        rw [ih]
    · simp [ha]

/-- The funding loop from `processed` on: it ends, and its bounds cut the rest
of the list into `ceil` many consecutive pieces of at most `numOps` entities. -/
theorem fundingLoop_partitions (pairs : Voters) (numOps : Nat) (hC : 0 < numOps) :
    ∀ (fuel processed : Nat), processed ≤ pairs.length → pairs.length - processed ≤ fuel →
      ∃ rs : List (Nat × Nat), fundingLoop numOps pairs.length fuel processed = some rs ∧
        rs.length = (pairs.length - processed + numOps - 1) / numOps ∧
        (∀ r ∈ rs, (slice pairs r.1 r.2).length ≤ numOps) ∧
        (rs.map (fun r => slice pairs r.1 r.2)).flatten = pairs.drop processed := by
  intro fuel
  induction fuel with
  | zero =>
    intro processed hp hf
    have : processed = pairs.length := by omega
    subst this
    refine ⟨[], by simp [fundingLoop], ?_, by simp, by simp⟩
    rw [Nat.sub_self, Nat.zero_add, Nat.div_eq_of_lt (by omega)]
    rfl
  | succ fuel ih =>
    intro processed hp hf
    by_cases hlt : processed < pairs.length
    · simp only [fundingLoop, hlt, if_true]
      by_cases hov : processed + numOps > pairs.length
      · simp only [hov, if_true]
        rw [fundingLoop_done numOps pairs.length fuel _ (le_refl _)]
        refine ⟨[(processed, pairs.length)], rfl, ?_, ?_, ?_⟩
        · have h1 : pairs.length - processed + numOps - 1 < 2 * numOps := by omega
          have h2 : numOps ≤ pairs.length - processed + numOps - 1 := by omega
          have h3 : (pairs.length - processed + numOps - 1) / numOps < 2 :=
            (Nat.div_lt_iff_lt_mul hC).mpr (by omega)
          have h4 : 1 ≤ (pairs.length - processed + numOps - 1) / numOps :=
            (Nat.le_div_iff_mul_le hC).mpr (by omega)
          simp
          omega
        · intro r hr
          simp at hr
          subst hr
          rw [slice_length pairs _ _ (le_refl _)]
          simp only
          omega
        · simp [slice]
      · simp only [hov, if_false]
        have hb : processed + numOps ≤ pairs.length := by omega
        obtain ⟨rs, hrs, hlen, hsz, hjoin⟩ := ih (processed + numOps) hb (by omega)
        refine ⟨(processed, processed + numOps) :: rs, by simp [hrs], ?_, ?_, ?_⟩
        · rw [List.length_cons, hlen]
          have h1 : pairs.length - processed + numOps - 1 =
              (pairs.length - (processed + numOps) + numOps - 1) + numOps := by omega
          rw [h1, Nat.add_div_right _ hC]
        · intro r hr
          rcases List.mem_cons.mp hr with rfl | hr
          · rw [slice_length pairs _ _ hb]
            simp
          · exact hsz r hr
        · rw [List.map_cons, List.flatten_cons, hjoin]
          exact drop_take_append_drop pairs processed (processed + numOps) (by omega) hb
    · have : processed = pairs.length := by omega
      subst this
      refine ⟨[], by simp [fundingLoop], ?_, by simp, by simp⟩
      rw [Nat.sub_self, Nat.zero_add, Nat.div_eq_of_lt (by omega)]
      rfl

/-- C4. For a chunk size `numOps > 0` the funding loop, and with chunk size 20
the inflation loop, end (fuel `len(pairs)` is enough) and produce exactly
`ceil(L / C)` chunks, none longer than the chunk size, whose concatenation in
production order is the original list. -/
theorem chunking_loops_partition (pairs : Voters) (numOps fuel : Nat) (hC : 0 < numOps)
    (hfuel : pairs.length ≤ fuel) :
    (∃ chunks : List Voters, fundingChunks numOps pairs fuel = some chunks ∧
      chunks.length = (pairs.length + numOps - 1) / numOps ∧
      (∀ ch ∈ chunks, ch.length ≤ numOps) ∧
      chunks.flatten = pairs) ∧
    (∃ chunks : List Voters, inflationChunks pairs fuel = some chunks ∧
      chunks.length = (pairs.length + SIGNERS_PER_TX_MAX - 1) / SIGNERS_PER_TX_MAX ∧
      (∀ ch ∈ chunks, ch.length ≤ SIGNERS_PER_TX_MAX) ∧
      chunks.flatten = pairs) := by
  constructor
  · obtain ⟨rs, hrs, hlen, hsz, hjoin⟩ :=
      fundingLoop_partitions pairs numOps hC fuel 0 (Nat.zero_le _) (by omega)
    refine ⟨rs.map (fun r => slice pairs r.1 r.2), by simp [fundingChunks, hrs], ?_, ?_, ?_⟩
    · simpa using hlen
    · intro ch hch
      obtain ⟨r, hr, rfl⟩ := List.mem_map.mp hch
      exact hsz r hr
    · simpa using hjoin
  · obtain ⟨rs, hrs, hlen, hsz, hjoin⟩ :=
      fundingLoop_partitions pairs SIGNERS_PER_TX_MAX (by decide) fuel 0 (Nat.zero_le _) (by omega)
    refine ⟨rs.map (fun r => slice pairs r.1 r.2),
      by simp [inflationChunks, inflationLoop_eq_fundingLoop, hrs], ?_, ?_, ?_⟩
    · simpa using hlen
    · intro ch hch
      obtain ⟨r, hr, rfl⟩ := List.mem_map.mp hch
      exact hsz r hr
    · simpa using hjoin

/-- C4 on three entities in chunks of two, with the bounds the funding loop
visits for 230 entities in chunks of 100: sizes 100, 100 and 30. -/
theorem chunking_loops_partition_witness :
    fundingLoop 100 230 230 0 = some [(0, 100), (100, 200), (200, 230)] ∧
    fundingChunks 2 demoPairs 3 = some [[alice, bob], [carol]] ∧
    ((∃ chunks : List Voters, fundingChunks 2 demoPairs 3 = some chunks ∧
      chunks.length = (demoPairs.length + 2 - 1) / 2 ∧
      (∀ ch ∈ chunks, ch.length ≤ 2) ∧
      chunks.flatten = demoPairs) ∧
    (∃ chunks : List Voters, inflationChunks demoPairs 3 = some chunks ∧
      chunks.length = (demoPairs.length + SIGNERS_PER_TX_MAX - 1) / SIGNERS_PER_TX_MAX ∧
      (∀ ch ∈ chunks, ch.length ≤ SIGNERS_PER_TX_MAX) ∧
      chunks.flatten = demoPairs)) :=
  ⟨by decide, by decide, chunking_loops_partition demoPairs 2 3 (by decide) (by decide)⟩

/-! ## C5: no operation succeeded -/

theorem keepSucceeded_none (pairs : Voters) (cs : List String) :
    ∀ (i : Nat) (tmp : Voters), (∀ code ∈ cs, code ≠ "op_success") →
      keepSucceeded pairs i cs tmp = Except.ok tmp := by
  induction cs with
  | nil => intro i tmp _; simp [keepSucceeded]
  | cons code cs ih =>
    intro i tmp hall
    have hc : code ≠ "op_success" := hall code (List.mem_cons_self _ _)
    simp only [keepSucceeded, hc, if_false]
    exact ih (i + 1) tmp (fun x hx => hall x (List.mem_cons_of_mem _ hx))

/-- C5, as the code has it. After a rejection with "tx_failed" in which no
operation code is "op_success", `createAndSubmit` goes on with the empty entity
list and the next sequence number: the builder is called once more. When the
builder refuses the empty list, the run returns the empty list after that one
builder call, with no further submission. -/
theorem createAndSubmit_no_survivor_asks_builder_again (c : Client) (src : TransactionCreator)
    (sf fuel : Nat) (h : History) (seq : Nat) (pairs : Voters) (xdr : String)
    (res : TransactionSuccess) (problem : Problem) (codes : TransactionResultCodes)
    (h2 : History)
    (hb : src h seq pairs = (xdr, false))
    (hs : submit c sf (h ++ [Event.create seq pairs xdr false]) xdr =
      (Except.ok (res, some (GoError.horizon problem (some codes))), h2))
    (htx : codes.TransactionCode = "tx_failed")
    (hnone : ∀ code ∈ codes.OperationCodes, code ≠ "op_success") :
    createAndSubmit c src sf (fuel + 1) h seq pairs =
        createAndSubmit c src sf fuel h2 ((seq + 1) % UINT64_MOD) [] ∧
      ((src h2 ((seq + 1) % UINT64_MOD) []).2 = true →
        createAndSubmit c src sf (fuel + 2) h seq pairs =
          (Except.ok [], h2 ++ [Event.create ((seq + 1) % UINT64_MOD) []
            (src h2 ((seq + 1) % UINT64_MOD) []).1 true])) := by
  have hb2 : (src h seq pairs).2 = false := by rw [hb]
  have hb1 : (src h seq pairs).1 = xdr := by rw [hb]
  have hv : verdict pairs (some (GoError.horizon problem (some codes))) = Sum.inr [] := by
    simp [verdict, htx, keepSucceeded_none pairs codes.OperationCodes 0 [] hnone]
  have hstep : ∀ fuel, createAndSubmit c src sf (fuel + 1) h seq pairs =
      createAndSubmit c src sf fuel h2 ((seq + 1) % UINT64_MOD) [] := by
    intro fuel
    rw [createAndSubmit_answered c src sf fuel h seq pairs res _ h2 hb2 (by rw [hb1]; exact hs), hv]
  refine ⟨hstep fuel, ?_⟩
  intro href
  rw [hstep (fuel + 1), createAndSubmit_refused c src sf fuel h2 _ [] href]

/-- C5 with a builder that refuses the empty list: after the rejection of the
only operation the builder is asked once more and the run ends there. -/
theorem createAndSubmit_no_survivor_asks_builder_again_witness :
    createAndSubmit underfundedClient guardedCreator 1 2 [] 5 [alice] =
      (Except.ok [], [Event.create 5 [alice] "tx" false,
        Event.submitTx "tx" ⟨0, ""⟩ (rejection "tx_failed" ["op_underfunded"])] ++
        [Event.create 6 [] "" true]) :=
  (createAndSubmit_no_survivor_asks_builder_again underfundedClient guardedCreator 1 0 [] 5
    [alice] "tx" ⟨0, ""⟩ ⟨"transaction_failed", 400⟩ ⟨"tx_failed", ["op_underfunded"]⟩
    [Event.create 5 [alice] "tx" false,
      Event.submitTx "tx" ⟨0, ""⟩ (rejection "tx_failed" ["op_underfunded"])]
    (by decide) (by rfl) (by decide) (by decide)).2 (by decide)

/-- C5 fails as stated: on the one-entity list, after a rejection with
"tx_failed" whose only operation code is not "op_success", the run does not
stop with the history it had at the rejection. The builder is called again,
with sequence 6 and the empty list: with a builder that builds for the empty
list the ledger service is called again as well, and with a builder that
refuses it the run ends on that builder call. -/
theorem createAndSubmit_no_survivor_is_not_immediate_abort :
    [alice] ≠ [] ∧
    plainCreator [] 5 [alice] = ("tx", false) ∧
    submit underfundedClient 1 [Event.create 5 [alice] "tx" false] "tx" =
      (Except.ok (⟨0, ""⟩, rejection "tx_failed" ["op_underfunded"]),
        [Event.create 5 [alice] "tx" false,
          Event.submitTx "tx" ⟨0, ""⟩ (rejection "tx_failed" ["op_underfunded"])]) ∧
    createAndSubmit underfundedClient plainCreator 1 2 [] 5 [alice] =
      (Except.ok [], [Event.create 5 [alice] "tx" false,
        Event.submitTx "tx" ⟨0, ""⟩ (rejection "tx_failed" ["op_underfunded"]),
        Event.create 6 [] "empty" false,
        Event.submitTx "empty" ⟨0, ""⟩ (rejection "tx_missing_operation" [])]) ∧
    createAndSubmit underfundedClient plainCreator 1 2 [] 5 [alice] ≠
      (Except.ok [], [Event.create 5 [alice] "tx" false,
        Event.submitTx "tx" ⟨0, ""⟩ (rejection "tx_failed" ["op_underfunded"])]) ∧
    (createAndSubmit underfundedClient guardedCreator 1 2 [] 5 [alice]).2 =
      [Event.create 5 [alice] "tx" false,
        Event.submitTx "tx" ⟨0, ""⟩ (rejection "tx_failed" ["op_underfunded"]),
        Event.create 6 [] "" true] := by
  refine ⟨by decide, by decide, by rfl, by rfl, ?_, by rfl⟩
  intro hEq
  have hlen := congrArg (fun r => r.2.length) hEq
  revert hlen
  decide

/-! ## Reading the attempts off a trace -/

theorem attempts_submits_append (xdr : String) (subs rest : List Event)
    (hall : ∀ e ∈ subs, ∃ res err, e = Event.submitTx xdr res err) :
    attempts (subs ++ rest) = attempts rest := by
  induction subs with
  | nil => rfl
  | cons e subs ih =>
    obtain ⟨res, err, rfl⟩ := hall _ (List.mem_cons_self _ _)
    simp only [List.cons_append, attempts]
    exact ih (fun x hx => hall x (List.mem_cons_of_mem _ hx))

theorem answerOf_submits_append (xdr : String) (subs rest : List Event)
    (res : TransactionSuccess) (err : Option GoError)
    (hall : ∀ e ∈ subs, ∃ res err, e = Event.submitTx xdr res err)
    (hlast : subs.getLast? = some (Event.submitTx xdr res err))
    (hrest : answerOf rest = none) :
    answerOf (subs ++ rest) = some err := by
  induction subs with
  | nil => simp at hlast
  | cons e subs ih =>
    obtain ⟨res1, err1, rfl⟩ := hall _ (List.mem_cons_self _ _)
    cases subs with
    | nil =>
      simp only [List.getLast?_singleton, Option.some.injEq, Event.submitTx.injEq] at hlast
      obtain ⟨-, -, rfl⟩ := hlast
      simp [answerOf, hrest]
    | cons e2 subs =>
      have h1 := ih (fun x hx => hall x (List.mem_cons_of_mem _ hx))
        (by simpa [List.getLast?_cons_cons] using hlast)
      have h2 : answerOf (Event.submitTx xdr res1 err1 :: ((e2 :: subs) ++ rest)) =
          match answerOf ((e2 :: subs) ++ rest) with
          | some a => some a
          | none => some err1 := rfl
      rw [List.cons_append, h2, h1]

theorem answerOf_mem (l : List Event) (a : Option GoError) (ha : answerOf l = some a) :
    ∃ xdr res, Event.submitTx xdr res a ∈ l := by
  induction l with
  | nil => simp [answerOf] at ha
  | cons e l ih =>
    cases e with
    | create seq dest xdr notOk => simp [answerOf] at ha
    | sequenceFor address seq err => simp [answerOf] at ha
    | submitTx xdr res err =>
      simp only [answerOf] at ha
      cases hl : answerOf l with
      | none =>
        rw [hl] at ha
        simp only [Option.some.injEq] at ha
        subst ha
        exact ⟨xdr, res, List.mem_cons_self _ _⟩
      | some b =>
        rw [hl] at ha
        simp only [Option.some.injEq] at ha
        subst ha
        obtain ⟨x, r, hm⟩ := ih hl
        exact ⟨x, r, List.mem_cons_of_mem _ hm⟩

theorem runTrace_answerOf (seq : Nat) (pairs : Voters) (evs : List Event)
    (r : Except Fault Voters) (ht : RunTrace seq pairs evs r) : answerOf evs = none := by
  cases ht <;> rfl

theorem verdict_inr (pairs tmp : Voters) (err : Option GoError)
    (hv : verdict pairs err = Sum.inr tmp) :
    ∃ problem codes, err = some (GoError.horizon problem (some codes)) ∧
      codes.TransactionCode = "tx_failed" ∧
      keepSucceeded pairs 0 codes.OperationCodes [] = Except.ok tmp := by
  rcases err with _ | ⟨problem, _ | codes⟩ | msg
  · simp [verdict] at hv
  · simp [verdict] at hv
  · by_cases htx : codes.TransactionCode = "tx_failed"
    · refine ⟨problem, codes, rfl, htx, ?_⟩
      cases hk : keepSucceeded pairs 0 codes.OperationCodes [] with
      | error f => simp [verdict, htx, hk] at hv
      | ok t =>
        simp [verdict, htx, hk] at hv
        rw [hv]
    · simp [verdict, htx] at hv
  · simp [verdict] at hv

/-- The attempts of a trace that went through at least one submission: the
first one carries the arguments of the run and the answer to its last
submission, the others are those of the rest of the trace. -/
theorem attempts_create_submits (seq : Nat) (pairs : Voters) (xdr : String) (notOk : Bool)
    (subs rest : List Event) (res : TransactionSuccess) (err : Option GoError)
    (hall : ∀ e ∈ subs, ∃ res err, e = Event.submitTx xdr res err)
    (hlast : subs.getLast? = some (Event.submitTx xdr res err))
    (hrest : answerOf rest = none) :
    attempts (Event.create seq pairs xdr notOk :: (subs ++ rest)) =
      ⟨seq, pairs, some err⟩ :: attempts rest := by
  simp only [attempts]
  rw [answerOf_submits_append xdr subs rest res err hall hlast hrest,
    attempts_submits_append xdr subs rest hall]

theorem runTrace_attempts_head (seq : Nat) (pairs : Voters) (evs : List Event)
    (r : Except Fault Voters) (ht : RunTrace seq pairs evs r) :
    ∀ a, (attempts evs).head? = some a → a.seq = seq ∧ a.dest = pairs := by
  intro a ha
  cases ht <;> simp [attempts] at ha <;> subst ha <;> exact ⟨rfl, rfl⟩

theorem attempts_create_only (seq : Nat) (pairs : Voters) (xdr : String) (notOk : Bool)
    (subs : List Event) (hall : ∀ e ∈ subs, ∃ res err, e = Event.submitTx xdr res err) :
    attempts (Event.create seq pairs xdr notOk :: subs) = [⟨seq, pairs, answerOf subs⟩] := by
  have h := attempts_submits_append xdr subs [] hall
  rw [List.append_nil] at h
  simp only [attempts, h]

theorem seq_index_cons (seq : Nat) (first : Attempt) (l : List Attempt)
    (hseq : seq < UINT64_MOD) (hfirst : first.seq = seq)
    (hl : ∀ k a, l[k]? = some a → a.seq = ((seq + 1) % UINT64_MOD + k) % UINT64_MOD) :
    ∀ k a, (first :: l)[k]? = some a → a.seq = (seq + k) % UINT64_MOD := by
  intro k a ha
  cases k with
  | zero =>
    simp only [List.getElem?_cons_zero, Option.some.injEq] at ha
    subst ha
    rw [hfirst, Nat.add_zero, Nat.mod_eq_of_lt hseq]
  | succ k =>
    rw [List.getElem?_cons_succ] at ha
    rw [hl k a ha, Nat.mod_add_mod]
    congr 1
    omega

/-- The builder calls of a trace: sequence numbers count up from the first,
modulo 2^64, and each entity list after the first is what the loop kept from
the one before under the operation codes of the rejection in between. -/
theorem runTrace_sequences (seq : Nat) (pairs : Voters) (evs : List Event)
    (r : Except Fault Voters) (ht : RunTrace seq pairs evs r) (hseq : seq < UINT64_MOD) :
    (∀ k a, (attempts evs)[k]? = some a → a.seq = (seq + k) % UINT64_MOD) ∧
    List.Chain' (fun a b => ∃ problem codes,
      a.answer = some (some (GoError.horizon problem (some codes))) ∧
      codes.TransactionCode = "tx_failed" ∧
      keepSucceeded a.dest 0 codes.OperationCodes [] = Except.ok b.dest) (attempts evs) := by
  induction ht with
  | noFuel seq pairs => exact ⟨by simp [attempts], by simp [attempts]⟩
  | refused seq pairs xdr =>
    refine ⟨?_, by simp [attempts]⟩
    exact seq_index_cons seq _ [] hseq rfl (by simp)
  | submitFault seq pairs xdr subs f hall =>
    rw [attempts_create_only seq pairs xdr false subs
      (fun e he => by obtain ⟨res, err, h1, -⟩ := hall e he; exact ⟨res, err, h1⟩)]
    exact ⟨seq_index_cons seq _ [] hseq rfl (by simp), by simp⟩
  | stop seq pairs xdr subs res err r hall hlast hnt hv =>
    rw [attempts_create_only seq pairs xdr false subs hall]
    exact ⟨seq_index_cons seq _ [] hseq rfl (by simp), by simp⟩
  | retry seq pairs xdr subs res err tmp rest r hall hlast hnt hv htr ih =>
    obtain ⟨ih1, ih2⟩ := ih (Nat.mod_lt _ (by decide))
    rw [attempts_create_submits seq pairs xdr false subs rest res err hall hlast
      (runTrace_answerOf _ _ _ _ htr)]
    refine ⟨seq_index_cons seq _ _ hseq rfl ih1, ?_⟩
    rw [List.chain'_cons']
    refine ⟨?_, ih2⟩
    intro b hb
    obtain ⟨-, hdest⟩ := runTrace_attempts_head _ _ _ _ htr b (by simpa using hb)
    obtain ⟨problem, codes, rfl, htx, hk⟩ := verdict_inr pairs tmp err hv
    exact ⟨problem, codes, rfl, htx, by rw [hdest]; exact hk⟩

/-- When the last attempt of a trace ends on an accepted submission, the run
returns the entity list of that attempt. -/
theorem runTrace_last_accepted (seq : Nat) (pairs : Voters) (evs : List Event)
    (r : Except Fault Voters) (ht : RunTrace seq pairs evs r) :
    ∀ a, (attempts evs).getLast? = some a → a.answer = some none → r = Except.ok a.dest := by
  induction ht with
  | noFuel seq pairs => intro a ha; simp [attempts] at ha
  | refused seq pairs xdr =>
    intro a ha hans
    simp [attempts, answerOf] at ha
    subst ha
    simp at hans
  | submitFault seq pairs xdr subs f hall =>
    intro a ha hans
    rw [attempts_create_only seq pairs xdr false subs
      (fun e he => by obtain ⟨res, err, h1, -⟩ := hall e he; exact ⟨res, err, h1⟩)] at ha
    simp at ha
    subst ha
    obtain ⟨x, r0, hm⟩ := answerOf_mem subs none hans
    obtain ⟨res, err, h1, h2⟩ := hall _ hm
    simp only [Event.submitTx.injEq] at h1
    obtain ⟨-, -, rfl⟩ := h1
    simp [isTimeout] at h2
  | stop seq pairs xdr subs res err r hall hlast hnt hv =>
    intro a ha hans
    have h0 := attempts_create_submits seq pairs xdr false subs [] res err hall hlast rfl
    rw [List.append_nil] at h0
    rw [h0] at ha
    simp [attempts] at ha
    subst ha
    simp only [Option.some.injEq] at hans
    subst hans
    simp only [verdict, Sum.inl.injEq] at hv
    exact hv.symm
  | retry seq pairs xdr subs res err tmp rest r hall hlast hnt hv htr ih =>
    intro a ha hans
    rw [attempts_create_submits seq pairs xdr false subs rest res err hall hlast
      (runTrace_answerOf _ _ _ _ htr)] at ha
    cases hrest : attempts rest with
    | nil =>
      rw [hrest] at ha
      simp at ha
      subst ha
      simp only [Option.some.injEq] at hans
      subst hans
      simp [verdict] at hv
    | cons b l =>
      rw [hrest, List.getLast?_cons_cons] at ha
      rw [hrest] at ih
      exact ih a ha hans

/-! ## C7: one sequence number per attempt -/

/-- C7. In every run of `createAndSubmit` started with a `uint64` sequence, also
one cut short by a fault, the builder call number `k + 1` receives the sequence
`seq + k` modulo 2^64; the first call receives the entity list of the run, and
each later call receives what the loop kept of the entity list of the call
before under the operation codes of that attempt's "tx_failed" rejection. -/
theorem createAndSubmit_sequence_per_attempt (c : Client) (src : TransactionCreator)
    (sf fuel : Nat) (h : History) (seq : Nat) (pairs : Voters) (hseq : seq < UINT64_MOD) :
    ∃ evs : List Event, (createAndSubmit c src sf fuel h seq pairs).2 = h ++ evs ∧
      (∀ k a, (attempts evs)[k]? = some a → a.seq = (seq + k) % UINT64_MOD) ∧
      (∀ a, (attempts evs).head? = some a → a.dest = pairs) ∧
      List.Chain' (fun a b => ∃ problem codes,
        a.answer = some (some (GoError.horizon problem (some codes))) ∧
        codes.TransactionCode = "tx_failed" ∧
        keepSucceeded a.dest 0 codes.OperationCodes [] = Except.ok b.dest) (attempts evs) := by
  obtain ⟨evs, hevs, ht⟩ := createAndSubmit_trace c src sf fuel h seq pairs
  obtain ⟨h1, h2⟩ := runTrace_sequences seq pairs evs _ ht hseq
  exact ⟨evs, hevs, h1, fun a ha => (runTrace_attempts_head seq pairs evs _ ht a ha).2, h2⟩

/-- C7 on a run with one retry, and at the top of the `uint64` range, where the
retry receives sequence 0. -/
theorem createAndSubmit_sequence_per_attempt_witness :
    attempts (createAndSubmit secondFailsClient plainCreator 1 3 [] 5 demoPairs).2 =
      [⟨5, demoPairs, some (rejection "tx_failed" ["op_success", "op_underfunded", "op_success"])⟩,
        ⟨6, [alice, carol], some none⟩] ∧
    (attempts (createAndSubmit secondFailsClient plainCreator 1 3 [] (2 ^ 64 - 1) demoPairs).2).map
      (fun a => a.seq) = [2 ^ 64 - 1, 0] ∧
    ∃ evs : List Event, (createAndSubmit secondFailsClient plainCreator 1 3 [] 5 demoPairs).2 =
        [] ++ evs ∧
      (∀ k a, (attempts evs)[k]? = some a → a.seq = (5 + k) % UINT64_MOD) ∧
      (∀ a, (attempts evs).head? = some a → a.dest = demoPairs) ∧
      List.Chain' (fun a b => ∃ problem codes,
        a.answer = some (some (GoError.horizon problem (some codes))) ∧
        codes.TransactionCode = "tx_failed" ∧
        keepSucceeded a.dest 0 codes.OperationCodes [] = Except.ok b.dest) (attempts evs) :=
  ⟨by decide, by decide,
    createAndSubmit_sequence_per_attempt secondFailsClient plainCreator 1 3 [] 5 demoPairs
      (by decide)⟩

/-! ## C8: success returns the current entity list -/

/-- C8. When the last attempt of a run of `createAndSubmit` ends on an accepted
submission, the run returns the entity list the builder was called with in that
attempt; and when the first submission is accepted, the run returns its input
list, with no call after that submission. -/
theorem createAndSubmit_accepted_returns_current (c : Client) (src : TransactionCreator)
    (sf fuel : Nat) (h : History) (seq : Nat) (pairs : Voters) :
    (∃ evs : List Event, (createAndSubmit c src sf fuel h seq pairs).2 = h ++ evs ∧
      ∀ a, (attempts evs).getLast? = some a → a.answer = some none →
        (createAndSubmit c src sf fuel h seq pairs).1 = Except.ok a.dest) ∧
    (∀ res h2, (src h seq pairs).2 = false →
      submit c sf (h ++ [Event.create seq pairs (src h seq pairs).1 false]) (src h seq pairs).1 =
        (Except.ok (res, none), h2) →
      createAndSubmit c src sf (fuel + 1) h seq pairs = (Except.ok pairs, h2)) := by
  constructor
  · obtain ⟨evs, hevs, ht⟩ := createAndSubmit_trace c src sf fuel h seq pairs
    exact ⟨evs, hevs, runTrace_last_accepted seq pairs evs _ ht⟩
  · intro res h2 hb hs
    rw [createAndSubmit_answered c src sf fuel h seq pairs res none h2 hb hs]
    rfl

/-- C8 on a run accepted at once, and on a run accepted at its second attempt,
which returns the two entities that attempt was built with. -/
theorem createAndSubmit_accepted_returns_current_witness :
    createAndSubmit negativeSeqClient plainCreator 1 1 [] 5 demoPairs =
      (Except.ok demoPairs, [Event.create 5 demoPairs "tx" false,
        Event.submitTx "tx" ⟨0, ""⟩ none]) ∧
    (createAndSubmit secondFailsClient plainCreator 1 3 [] 5 demoPairs).1 =
      Except.ok [alice, carol] :=
  ⟨(createAndSubmit_accepted_returns_current negativeSeqClient plainCreator 1 0 [] 5 demoPairs).2
      ⟨0, ""⟩ _ (by decide) (by rfl),
    by
      obtain ⟨evs, hevs, hlast⟩ :=
        (createAndSubmit_accepted_returns_current secondFailsClient plainCreator 1 3 [] 5
          demoPairs).1
      have hev : evs = (createAndSubmit secondFailsClient plainCreator 1 3 [] 5 demoPairs).2 := by
        rw [hevs]; rfl
      exact hlast ⟨6, [alice, carol], some none⟩ (by rw [hev]; decide) rfl⟩

/-! ## C9: timeout resubmission -/

theorem resubmitted_events (c : Client) (xdr : String) :
    ∀ (k : Nat) (h : History), ∃ evs : List Event, resubmitted c xdr k h = h ++ evs ∧
      evs.length = k ∧ ∀ e ∈ evs, ∃ res err, e = Event.submitTx xdr res err := by
  intro k
  induction k with
  | zero => intro h; exact ⟨[], by simp [resubmitted], rfl, by simp⟩
  | succ k ih =>
    intro h
    obtain ⟨evs, h1, h2, h3⟩ := ih
      (h ++ [Event.submitTx xdr (c.SubmitTransaction h xdr).1 (c.SubmitTransaction h xdr).2])
    refine ⟨Event.submitTx xdr (c.SubmitTransaction h xdr).1 (c.SubmitTransaction h xdr).2 :: evs,
      by simp [resubmitted, h1], by simp [h2], ?_⟩
    intro e he
    rcases List.mem_cons.mp he with rfl | he
    · exact ⟨_, _, rfl⟩
    · exact h3 e he

/-- C9. When the first `n` answers to the envelope are `*horizon.Error`s with
status 504 and the next answer is not, `submit` (given fuel for `n + 1` passes)
returns the result and error of that next answer after exactly `n + 1` calls of
`SubmitTransaction`, each with the envelope it was given; with `n = 0` any other
answer is returned after a single call. -/
theorem submit_resubmits_same_envelope (c : Client) (xdr : String) (n fuel : Nat) (h : History)
    (htimeouts : ∀ k, k < n →
      isTimeout (c.SubmitTransaction (resubmitted c xdr k h) xdr).2 = true)
    (hanswer : isTimeout (c.SubmitTransaction (resubmitted c xdr n h) xdr).2 = false)
    (hfuel : n < fuel) :
    submit c fuel h xdr =
        (Except.ok (c.SubmitTransaction (resubmitted c xdr n h) xdr),
          resubmitted c xdr (n + 1) h) ∧
      ∃ evs : List Event, resubmitted c xdr (n + 1) h = h ++ evs ∧ evs.length = n + 1 ∧
        ∀ e ∈ evs, ∃ res err, e = Event.submitTx xdr res err := by
  refine ⟨?_, resubmitted_events c xdr (n + 1) h⟩
  induction n generalizing h fuel with
  | zero =>
    obtain ⟨fuel, rfl⟩ : ∃ f, fuel = f + 1 := ⟨fuel - 1, by omega⟩
    simp only [resubmitted] at hanswer
    rw [submit_succ, hanswer]
    simp [resubmitted]
  | succ n ih =>
    obtain ⟨fuel, rfl⟩ : ∃ f, fuel = f + 1 := ⟨fuel - 1, by omega⟩
    have h0 := htimeouts 0 (by omega)
    simp only [resubmitted] at h0
    rw [submit_succ, h0]
    simp only [if_true]
    exact ih fuel _ (fun k hk => htimeouts (k + 1) (by omega)) hanswer (by omega)

/-- C9 on two timeouts followed by an acceptance: three calls, all with the
envelope "tx". -/
theorem submit_resubmits_same_envelope_witness :
    submit timeoutTwiceClient 5 [] "tx" =
      (Except.ok (⟨7, "hash"⟩, none),
        [Event.submitTx "tx" ⟨0, ""⟩ gatewayTimeout, Event.submitTx "tx" ⟨0, ""⟩ gatewayTimeout,
          Event.submitTx "tx" ⟨7, "hash"⟩ none]) :=
  (submit_resubmits_same_envelope timeoutTwiceClient "tx" 2 5 [] (by decide) (by decide)
    (by decide)).1

/-! ## C6: retry termination -/

theorem survivors_length_lt (pairs : Voters) (ops : List String)
    (hlen : ops.length = pairs.length)
    (hex : ∃ i, i < ops.length ∧ ops[i]? ≠ some "op_success") :
    (survivors pairs ops).length < pairs.length := by
  obtain ⟨i, hi, hne⟩ := hex
  have h1 : (survivors pairs ops).length ≤ (survivingIndices ops).length :=
    List.length_filterMap_le _ _
  have h2 : (survivingIndices ops).length < (List.range ops.length).length := by
    unfold survivingIndices
    rw [List.length_filter_lt_length_iff_exists]
    exact ⟨i, List.mem_range.mpr hi, by simpa using hne⟩
  rw [List.length_range] at h2
  omega

theorem lastDest_append_create (h : History) (seq : Nat) (dest : Voters) (xdr : String)
    (notOk : Bool) : lastDest (h ++ [Event.create seq dest xdr notOk]) = dest := by
  simp [lastDest, List.foldl_append]

/-- The retry loop under a service that, on every rejection, reports at least
one of the submitted operations as failed: the run ends, with at most one
builder call more than there are entities, each on a shorter list. -/
theorem createAndSubmit_shrinks (c : Client) (src : TransactionCreator) (sf : Nat)
    (bad : Full → Bool)
    (hbuild : ∀ h q ps, (src h q ps).2 = false)
    (haccept : ∀ h xdr, (lastDest h).any bad = false → (c.SubmitTransaction h xdr).2 = none)
    (hreject : ∀ h xdr, (lastDest h).any bad = true → ∃ problem ops,
      (c.SubmitTransaction h xdr).2 = some (GoError.horizon problem (some ⟨"tx_failed", ops⟩)) ∧
      problem.Status ≠ 504 ∧ ops.length = (lastDest h).length ∧
      ∃ (i : Nat) (p : Full), (lastDest h)[i]? = some p ∧ bad p = true ∧
        ops[i]? ≠ some "op_success")
    (hsf : 0 < sf) :
    ∀ (fuel : Nat) (h : History) (seq : Nat) (pairs : Voters), pairs.length < fuel →
      ∃ result, (createAndSubmit c src sf fuel h seq pairs).1 = Except.ok result ∧
        ∀ evs, (createAndSubmit c src sf fuel h seq pairs).2 = h ++ evs →
          (attempts evs).length ≤ pairs.length + 1 ∧
          List.Chain' (fun a b => b.dest.length < a.dest.length) (attempts evs) := by
  obtain ⟨sf, rfl⟩ : ∃ f, sf = f + 1 := ⟨sf - 1, by omega⟩
  intro fuel
  induction fuel with
  | zero => intro h seq pairs hlt; omega
  | succ fuel ih =>
    intro h seq pairs hlt
    have hb := hbuild h seq pairs
    have hld := lastDest_append_create h seq pairs (src h seq pairs).1 false
    by_cases hany : pairs.any bad = true
    · obtain ⟨problem, ops, herr, hst, hlen, i, p, hip, hbad, hne⟩ :=
        hreject (h ++ [Event.create seq pairs (src h seq pairs).1 false]) (src h seq pairs).1
          (by rw [hld]; exact hany)
      rw [hld] at hlen hip
      have hnt : isTimeout (c.SubmitTransaction
          (h ++ [Event.create seq pairs (src h seq pairs).1 false]) (src h seq pairs).1).2 =
          false := by
        rw [herr]; simp [isTimeout, hst]
      have hs := submit_succ c sf (h ++ [Event.create seq pairs (src h seq pairs).1 false])
        (src h seq pairs).1
      rw [hnt] at hs
      simp only [Bool.false_eq_true, if_false] at hs
      have hi : i < ops.length := by
        rw [hlen]
        exact (List.getElem?_eq_some_iff.mp hip).1
      have hk := keepSucceeded_survivors pairs ops (by omega)
      have hshort := survivors_length_lt pairs ops hlen ⟨i, hi, hne⟩
      have hv : verdict pairs (c.SubmitTransaction
          (h ++ [Event.create seq pairs (src h seq pairs).1 false]) (src h seq pairs).1).2 =
          Sum.inr (survivors pairs ops) := by
        rw [herr]; simp [verdict, hk]
      rw [createAndSubmit_answered c src sf.succ fuel h seq pairs _ _ _ hb hs, hv]
      simp only
      obtain ⟨result, hres, hrest⟩ := ih
        (h ++ [Event.create seq pairs (src h seq pairs).1 false] ++
          [Event.submitTx (src h seq pairs).1
            (c.SubmitTransaction (h ++ [Event.create seq pairs (src h seq pairs).1 false])
              (src h seq pairs).1).1
            (c.SubmitTransaction (h ++ [Event.create seq pairs (src h seq pairs).1 false])
              (src h seq pairs).1).2])
        ((seq + 1) % UINT64_MOD) (survivors pairs ops) (by omega)
      refine ⟨result, hres, ?_⟩
      intro evs hevs
      obtain ⟨rest, hr1, hr2⟩ := createAndSubmit_trace c src sf.succ fuel
        (h ++ [Event.create seq pairs (src h seq pairs).1 false] ++
          [Event.submitTx (src h seq pairs).1
            (c.SubmitTransaction (h ++ [Event.create seq pairs (src h seq pairs).1 false])
              (src h seq pairs).1).1
            (c.SubmitTransaction (h ++ [Event.create seq pairs (src h seq pairs).1 false])
              (src h seq pairs).1).2])
        ((seq + 1) % UINT64_MOD) (survivors pairs ops)
      obtain ⟨hcount, hchain⟩ := hrest rest hr1
      rw [hr1, List.append_assoc, List.append_assoc, List.append_cancel_left_eq] at hevs
      subst hevs
      have hatt := attempts_create_submits seq pairs (src h seq pairs).1 false
        [Event.submitTx (src h seq pairs).1
            (c.SubmitTransaction (h ++ [Event.create seq pairs (src h seq pairs).1 false])
              (src h seq pairs).1).1
            (c.SubmitTransaction (h ++ [Event.create seq pairs (src h seq pairs).1 false])
              (src h seq pairs).1).2]
        rest _ _ (by intro e he; simp at he; exact ⟨_, _, he⟩) rfl
        (runTrace_answerOf _ _ _ _ hr2)
      simp only [List.singleton_append, List.cons_append, List.nil_append] at hatt ⊢
      rw [hatt]
      refine ⟨by simp only [List.length_cons]; omega, ?_⟩
      rw [List.chain'_cons']
      refine ⟨?_, hchain⟩
      intro b hb2
      obtain ⟨-, hdest⟩ := runTrace_attempts_head _ _ _ _ hr2 b (by simpa using hb2)
      rw [hdest]
      exact hshort
    · have hany : pairs.any bad = false := by simpa using hany
      have herr := haccept (h ++ [Event.create seq pairs (src h seq pairs).1 false])
        (src h seq pairs).1 (by rw [hld]; exact hany)
      have hs := submit_succ c sf (h ++ [Event.create seq pairs (src h seq pairs).1 false])
        (src h seq pairs).1
      rw [herr] at hs
      simp only [isTimeout, Bool.false_eq_true, if_false] at hs
      rw [createAndSubmit_answered c src sf.succ fuel h seq pairs _ _ _ hb hs]
      simp only [verdict]
      refine ⟨pairs, rfl, ?_⟩
      intro evs hevs
      rw [List.append_assoc, List.append_cancel_left_eq] at hevs
      subst hevs
      simp [attempts, answerOf]

/-- C6. With a builder that never fails and a service that never times out,
accepts once no remaining operation is in a fixed subset, and otherwise rejects
with "tx_failed", one code per operation, reporting at least one operation of
the subset as failed: `createAndSubmit` on `n` entities returns (fuel `n + 1` is
enough) after at most `n + 1` builder calls, that is at most `n` retries, and
each retry is built on a strictly shorter entity list than the attempt before. -/
theorem createAndSubmit_terminates_within_batch_size (c : Client) (src : TransactionCreator)
    (sf fuel : Nat) (h : History) (seq : Nat) (pairs : Voters) (bad : Full → Bool)
    (hbuild : ∀ h q ps, (src h q ps).2 = false)
    (haccept : ∀ h xdr, (lastDest h).any bad = false → (c.SubmitTransaction h xdr).2 = none)
    (hreject : ∀ h xdr, (lastDest h).any bad = true → ∃ problem ops,
      (c.SubmitTransaction h xdr).2 = some (GoError.horizon problem (some ⟨"tx_failed", ops⟩)) ∧
      problem.Status ≠ 504 ∧ ops.length = (lastDest h).length ∧
      ∃ (i : Nat) (p : Full), (lastDest h)[i]? = some p ∧ bad p = true ∧
        ops[i]? ≠ some "op_success")
    (hsf : 0 < sf) (hfuel : pairs.length < fuel) :
    ∃ (result : Voters) (evs : List Event),
      createAndSubmit c src sf fuel h seq pairs = (Except.ok result, h ++ evs) ∧
      (attempts evs).length ≤ pairs.length + 1 ∧
      List.Chain' (fun a b => b.dest.length < a.dest.length) (attempts evs) := by
  obtain ⟨result, hres, hall⟩ :=
    createAndSubmit_shrinks c src sf bad hbuild haccept hreject hsf fuel h seq pairs hfuel
  obtain ⟨evs, hevs, -⟩ := createAndSubmit_trace c src sf fuel h seq pairs
  exact ⟨result, evs, Prod.ext hres hevs, hall evs hevs⟩

theorem bobFailsClient_accepts (h : History) (xdr : String)
    (hany : (lastDest h).any (fun p => decide (p = bob)) = false) :
    (bobFailsClient.SubmitTransaction h xdr).2 = none := by
  simp only [bobFailsClient, hany]
  rfl

theorem bobFailsClient_rejects (h : History) (xdr : String)
    (hany : (lastDest h).any (fun p => decide (p = bob)) = true) :
    ∃ problem ops,
      (bobFailsClient.SubmitTransaction h xdr).2 =
        some (GoError.horizon problem (some ⟨"tx_failed", ops⟩)) ∧
      problem.Status ≠ 504 ∧ ops.length = (lastDest h).length ∧
      ∃ (i : Nat) (p : Full), (lastDest h)[i]? = some p ∧ (fun p => decide (p = bob)) p = true ∧
        ops[i]? ≠ some "op_success" := by
  refine ⟨⟨"transaction_failed", 400⟩,
    (lastDest h).map (fun p => if p = bob then "op_underfunded" else "op_success"), ?_, by decide,
    by simp, ?_⟩
  · simp only [bobFailsClient, hany, if_true]
    rfl
  · obtain ⟨p, hp, hbob⟩ := List.any_eq_true.mp hany
    obtain ⟨i, hi⟩ := List.mem_iff_getElem?.mp hp
    refine ⟨i, p, hi, hbob, ?_⟩
    have hpb : p = bob := by simpa using hbob
    rw [List.getElem?_map, hi, hpb]
    decide

/-- C6 on three entities of which one always fails: the run ends with the two
others after a single retry. -/
theorem createAndSubmit_terminates_within_batch_size_witness :
    createAndSubmit bobFailsClient plainCreator 1 4 [] 5 demoPairs =
      (Except.ok [alice, carol],
        [Event.create 5 demoPairs "tx" false,
          Event.submitTx "tx" ⟨0, ""⟩
            (rejection "tx_failed" ["op_success", "op_underfunded", "op_success"]),
          Event.create 6 [alice, carol] "tx" false,
          Event.submitTx "tx" ⟨7, "hash"⟩ none]) ∧
    ∃ (result : Voters) (evs : List Event),
      createAndSubmit bobFailsClient plainCreator 1 4 [] 5 demoPairs =
        (Except.ok result, [] ++ evs) ∧
      (attempts evs).length ≤ demoPairs.length + 1 ∧
      List.Chain' (fun a b => b.dest.length < a.dest.length) (attempts evs) :=
  ⟨by rfl,
    createAndSubmit_terminates_within_batch_size bobFailsClient plainCreator 1 4 [] 5 demoPairs
      (fun p => decide (p = bob)) (fun _ _ _ => rfl) bobFailsClient_accepts bobFailsClient_rejects
      (by decide) (by decide)⟩

/-! ## C11: range of the funding amount -/

theorem wrapInt_of_range (x : Int) (hlo : -2 ^ 63 ≤ x) (hhi : x < 2 ^ 63) : wrapInt x = x := by
  unfold wrapInt
  omega

/-- The assignments of `validateFlags` to `minBal` and `maxBal`, away from the
largest `int`. -/
theorem clamp_range (a b : Int) (ha : -2 ^ 63 ≤ a ∧ a < 2 ^ 63) (hb : -2 ^ 63 ≤ b ∧ b < 2 ^ 63)
    (hnot : ¬ (a = 2 ^ 63 - 1 ∧ b = 2 ^ 63 - 1)) :
    let minBal := if a < 10000000 then 10000000 else a
    let maxBal := if b < 10000001 then 10000001 else b
    let maxBal := if minBal = maxBal then wrapInt (minBal + 1) else maxBal
    let swapped := if maxBal < minBal then (maxBal, minBal) else (minBal, maxBal)
    10000000 ≤ swapped.1 ∧ swapped.1 < swapped.2 ∧ swapped.2 < 2 ^ 63 := by
  simp only [wrapInt]
  split_ifs <;> simp only [] <;> omega

/-- Away from the largest `int`, `validateFlags` leaves `10000000 ≤ minBal <
maxBal`, and every initial balance lies from `minBal` up to `maxBal - 1`. -/
theorem validateFlags_range_below_max (f g : Flags) (funderPub : String)
    (hmin : -2 ^ 63 ≤ f.minBal ∧ f.minBal < 2 ^ 63)
    (hmax : -2 ^ 63 ≤ f.maxBal ∧ f.maxBal < 2 ^ 63)
    (hnot : ¬ (f.minBal = 2 ^ 63 - 1 ∧ f.maxBal = 2 ^ 63 - 1))
    (hv : validateFlags f = some g) :
    10000000 ≤ g.minBal ∧ g.minBal < g.maxBal ∧
      ∀ raw, ∃ a, (mainFunder g funderPub).initialBalance raw = some a ∧
        g.minBal ≤ a ∧ a < g.maxBal := by
  have hrange : 10000000 ≤ g.minBal ∧ g.minBal < g.maxBal ∧ g.maxBal < 2 ^ 63 := by
    simp only [validateFlags] at hv
    by_cases h1 : f.funderSec ≠ "" ∧ (f.funderSec.get 0 ≠ 'S' ∨ f.funderSec.utf8ByteSize < 56)
    · rw [if_pos h1] at hv
      cases hv
    · rw [if_neg h1] at hv
      by_cases h2 : f.funderSec = "" ∧ f.useSink = false ∧ f.onlyGenerate = false
      · rw [if_pos h2] at hv
        cases hv
      · rw [if_neg h2] at hv
        simp only [Option.some.injEq] at hv
        subst hv
        exact clamp_range f.minBal f.maxBal hmin hmax hnot
  obtain ⟨h1, h2, h3⟩ := hrange
  refine ⟨h1, h2, ?_⟩
  intro raw
  have hd : wrapInt (g.maxBal - g.minBal) = g.maxBal - g.minBal :=
    wrapInt_of_range _ (by omega) (by omega)
  have hpos : 0 < g.maxBal - g.minBal := by omega
  have hr0 : 0 ≤ (raw : Int) % (g.maxBal - g.minBal) := Int.emod_nonneg _ (by omega)
  have hr1 : (raw : Int) % (g.maxBal - g.minBal) < g.maxBal - g.minBal :=
    Int.emod_lt_of_pos _ hpos
  refine ⟨g.minBal + (raw : Int) % (g.maxBal - g.minBal), ?_, by omega, by omega⟩
  simp only [AccountFunder.initialBalance, mainFunder, hd, randIntn, Int.not_le.mpr hpos,
    if_false, Option.map_some']
  rw [wrapInt_of_range _ (by omega) (by omega)]

/-- C11. With both `-min` and `-max` at the largest `int`, 2^63 - 1, the
assignment `maxBal = minBal + 1` overflows and the swap that follows leaves
`minBal` at -2^63, below 10000000; `Max - Min` then wraps to -1 and `rand.Intn`
panics for every destination instead of giving an amount. -/
theorem validateFlags_overflow_at_max_int :
    validateFlags maxIntFlags = some ⟨10, 100, -2 ^ 63, 2 ^ 63 - 1, demoSeed, false, false⟩ ∧
    wrapInt ((2 ^ 63 - 1) - (-2 ^ 63)) = -1 ∧
    (mainFunder ⟨10, 100, -2 ^ 63, 2 ^ 63 - 1, demoSeed, false, false⟩
      "GCFXD4OBX4TZ5GGBWIXLIJHTU2Z6OWVPYYU44QSKCCU7P2RGFOOHTEST").initialBalance 0 = none := by
  refine ⟨by decide, by decide, by decide⟩

/-! ## Survivors as a sublist -/

/-- What the loop over the operation codes appends is a sublist of the entities
from index `i` on. -/
theorem keepSucceeded_sublist (pairs : Voters) (cs : List String) :
    ∀ (i : Nat) (tmp out : Voters), keepSucceeded pairs i cs tmp = Except.ok out →
      ∃ kept : Voters, out = tmp ++ kept ∧ kept.Sublist (pairs.drop i) := by
  induction cs with
  | nil =>
    intro i tmp out hk
    simp only [keepSucceeded, Except.ok.injEq] at hk
    exact ⟨[], by simp [hk], List.nil_sublist _⟩
  | cons code cs ih =>
    intro i tmp out hk
    by_cases hc : code = "op_success"
    · simp only [keepSucceeded, hc, if_true] at hk
      cases hp : pairs[i]? with
      | none => simp [hp] at hk
      | some p =>
        simp only [hp] at hk
        obtain ⟨kept, hout, hsub⟩ := ih (i + 1) (tmp ++ [p]) out hk
        obtain ⟨hi, hpi⟩ := List.getElem?_eq_some_iff.mp hp
        refine ⟨p :: kept, by simp [hout], ?_⟩
        rw [List.drop_eq_getElem_cons hi, hpi]
        exact List.Sublist.cons₂ p hsub
    · simp only [keepSucceeded, hc, if_false] at hk
      obtain ⟨kept, hout, hsub⟩ := ih (i + 1) tmp out hk
      exact ⟨kept, hout, hsub.trans (List.drop_sublist_drop_left pairs (Nat.le_succ i))⟩

theorem verdict_inr_sublist (pairs tmp : Voters) (err : Option GoError)
    (hv : verdict pairs err = Sum.inr tmp) : tmp.Sublist pairs := by
  obtain ⟨problem, codes, -, -, hk⟩ := verdict_inr pairs tmp err hv
  obtain ⟨kept, hout, hsub⟩ := keepSucceeded_sublist pairs codes.OperationCodes 0 [] tmp hk
  simpa [hout] using hsub

theorem verdict_inl_ok (pairs result : Voters) (err : Option GoError)
    (hv : verdict pairs err = Sum.inl (Except.ok result)) : result.Sublist pairs := by
  rcases err with _ | ⟨problem, _ | codes⟩ | msg
  · simp only [verdict, Sum.inl.injEq, Except.ok.injEq] at hv
    rw [← hv]
  · simp only [verdict, Sum.inl.injEq, Except.ok.injEq] at hv
    rw [← hv]
    exact List.nil_sublist _
  · by_cases htx : codes.TransactionCode = "tx_failed"
    · cases hk : keepSucceeded pairs 0 codes.OperationCodes [] <;>
        simp [verdict, htx, hk] at hv
    · simp only [verdict, htx, if_false, Sum.inl.injEq, Except.ok.injEq] at hv
      rw [← hv]
      exact List.nil_sublist _
  · simp only [verdict, Sum.inl.injEq, Except.ok.injEq] at hv
    rw [← hv]
    exact List.nil_sublist _

theorem verdict_inl_error (pairs : Voters) (err : Option GoError) (f : Fault)
    (hv : verdict pairs err = Sum.inl (Except.error f)) :
    ∃ problem codes, err = some (GoError.horizon problem (some codes)) ∧
      keepSucceeded pairs 0 codes.OperationCodes [] = Except.error f := by
  rcases err with _ | ⟨problem, _ | codes⟩ | msg
  · simp [verdict] at hv
  · simp [verdict] at hv
  · by_cases htx : codes.TransactionCode = "tx_failed"
    · refine ⟨problem, codes, rfl, ?_⟩
      cases hk : keepSucceeded pairs 0 codes.OperationCodes [] with
      | error g =>
        simp [verdict, htx, hk] at hv
        rw [hv]
      | ok t => simp [verdict, htx, hk] at hv
    · simp [verdict, htx] at hv
  · simp [verdict] at hv

/-- The list a run returns is a sublist of the one it was given, and so is the
entity list of each builder call of the one before. -/
theorem runTrace_sublist (seq : Nat) (pairs : Voters) (evs : List Event)
    (r : Except Fault Voters) (ht : RunTrace seq pairs evs r) :
    (∀ result, r = Except.ok result → result.Sublist pairs) ∧
    List.Chain' (fun a b => b.dest.Sublist a.dest) (attempts evs) := by
  induction ht with
  | noFuel seq pairs => exact ⟨fun result hr => (by cases hr), by simp [attempts]⟩
  | refused seq pairs xdr =>
    refine ⟨?_, by simp [attempts]⟩
    intro result hr
    simp only [Except.ok.injEq] at hr
    rw [← hr]
    exact List.nil_sublist _
  | submitFault seq pairs xdr subs f hall =>
    rw [attempts_create_only seq pairs xdr false subs
      (fun e he => by obtain ⟨res, err, h1, -⟩ := hall e he; exact ⟨res, err, h1⟩)]
    exact ⟨fun result hr => (by cases hr), by simp⟩
  | stop seq pairs xdr subs res err r hall hlast hnt hv =>
    rw [attempts_create_only seq pairs xdr false subs hall]
    refine ⟨?_, by simp⟩
    intro result hr
    subst hr
    exact verdict_inl_ok pairs result err hv
  | retry seq pairs xdr subs res err tmp rest r hall hlast hnt hv htr ih =>
    obtain ⟨ih1, ih2⟩ := ih
    have htmp := verdict_inr_sublist pairs tmp err hv
    rw [attempts_create_submits seq pairs xdr false subs rest res err hall hlast
      (runTrace_answerOf _ _ _ _ htr)]
    refine ⟨fun result hr => (ih1 result hr).trans htmp, ?_⟩
    rw [List.chain'_cons']
    refine ⟨?_, ih2⟩
    intro b hb
    obtain ⟨-, hdest⟩ := runTrace_attempts_head _ _ _ _ htr b (by simpa using hb)
    rw [hdest]
    exact htmp

/-- The answer `submit` returns is the answer of the service to the envelope
after some resubmissions of it. -/
theorem submit_answer_origin (c : Client) (xdr : String) :
    ∀ (fuel : Nat) (h : History) (res : TransactionSuccess) (err : Option GoError)
      (h2 : History), submit c fuel h xdr = (Except.ok (res, err), h2) →
      ∃ pre : List Event, (∀ e ∈ pre, ∃ res err, e = Event.submitTx xdr res err) ∧
        (c.SubmitTransaction (h ++ pre) xdr).2 = err := by
  intro fuel
  induction fuel with
  | zero => intro h res err h2 hs; simp [submit] at hs
  | succ fuel ih =>
    intro h res err h2 hs
    rw [submit_succ] at hs
    by_cases ht : isTimeout (c.SubmitTransaction h xdr).2 = true
    · rw [if_pos ht] at hs
      obtain ⟨pre, hall, hans⟩ := ih _ res err h2 hs
      refine ⟨Event.submitTx xdr (c.SubmitTransaction h xdr).1 (c.SubmitTransaction h xdr).2 :: pre,
        ?_, by simpa using hans⟩
      intro e he
      rcases List.mem_cons.mp he with rfl | he
      · exact ⟨_, _, rfl⟩
      · exact hall e he
    · rw [if_neg ht] at hs
      simp only [Prod.mk.injEq, Except.ok.injEq] at hs
      exact ⟨[], by simp, by simpa using hs.1.2⟩

/-- The only fault of `submit` is running out of fuel. -/
theorem submit_fault_outOfFuel (c : Client) (xdr : String) :
    ∀ (fuel : Nat) (h : History) (f : Fault),
      (submit c fuel h xdr).1 = Except.error f → f = Fault.outOfFuel := by
  intro fuel
  induction fuel with
  | zero =>
    intro h f hs
    simp only [submit, Except.error.injEq] at hs
    exact hs.symm
  | succ fuel ih =>
    intro h f hs
    rw [submit_succ] at hs
    by_cases ht : isTimeout (c.SubmitTransaction h xdr).2 = true
    · rw [if_pos ht] at hs
      exact ih _ f hs
    · rw [if_neg ht] at hs
      cases hs

theorem lastDest_append_submits (xdr : String) (h pre : List Event)
    (hall : ∀ e ∈ pre, ∃ res err, e = Event.submitTx xdr res err) :
    lastDest (h ++ pre) = lastDest h := by
  unfold lastDest
  rw [List.foldl_append]
  generalize List.foldl _ [] h = acc
  induction pre with
  | nil => rfl
  | cons e pre ih =>
    obtain ⟨res, err, rfl⟩ := hall _ (List.mem_cons_self _ _)
    simp only [List.foldl_cons]
    exact ih (fun x hx => hall x (List.mem_cons_of_mem _ hx))

/-- When no answer of the service carries more operation codes than the
envelope in flight has operations, a run never panics: its only fault is
running out of fuel. -/
theorem createAndSubmit_fault_outOfFuel (c : Client) (src : TransactionCreator) (sf : Nat)
    (hcodes : ∀ h xdr problem codes,
      (c.SubmitTransaction h xdr).2 = some (GoError.horizon problem (some codes)) →
      codes.OperationCodes.length ≤ (lastDest h).length) :
    ∀ (fuel : Nat) (h : History) (seq : Nat) (pairs : Voters) (f : Fault),
      (createAndSubmit c src sf fuel h seq pairs).1 = Except.error f → f = Fault.outOfFuel := by
  intro fuel
  induction fuel with
  | zero =>
    intro h seq pairs f hr
    simp only [createAndSubmit, Except.error.injEq] at hr
    exact hr.symm
  | succ fuel ih =>
    intro h seq pairs f hr
    by_cases hb : (src h seq pairs).2 = true
    · rw [createAndSubmit_refused c src sf fuel h seq pairs hb] at hr
      cases hr
    · have hb : (src h seq pairs).2 = false := by simpa using hb
      rcases hs : submit c sf (h ++ [Event.create seq pairs (src h seq pairs).1 false])
        (src h seq pairs).1 with ⟨_ | ⟨res, err⟩, h2⟩
      · rename_i g
        rw [createAndSubmit_fault c src sf fuel h seq pairs g h2 hb hs] at hr
        simp only [Except.error.injEq] at hr
        subst hr
        exact submit_fault_outOfFuel c _ sf _ g (by rw [hs])
      · rw [createAndSubmit_answered c src sf fuel h seq pairs res err h2 hb hs] at hr
        rcases hv : verdict pairs err with r | tmp
        · rw [hv] at hr
          simp only at hr
          subst hr
          obtain ⟨problem, codes, herr, hk⟩ := verdict_inl_error pairs err f hv
          obtain ⟨pre, hall, hans⟩ := submit_answer_origin c _ sf _ res err h2 hs
          have hlen := hcodes _ _ problem codes (hans.trans herr)
          rw [lastDest_append_submits _ _ pre hall, lastDest_append_create] at hlen
          rw [keepSucceeded_survivors pairs codes.OperationCodes hlen] at hk
          cases hk
        · rw [hv] at hr
          exact ih h2 _ tmp f hr

/-! ## C12: survivors are a sublist of the input -/

/-- C12. When no answer of the service carries more operation codes than the
entity list just submitted has entities, a run of `createAndSubmit` either
returns an order-preserving sublist of its input or runs out of fuel (it never
panics), and the entity list of every builder call after the first is a sublist
of the entity list of the call before. -/
theorem createAndSubmit_survivors_sublist (c : Client) (src : TransactionCreator)
    (sf fuel : Nat) (h : History) (seq : Nat) (pairs : Voters)
    (hcodes : ∀ h xdr problem codes,
      (c.SubmitTransaction h xdr).2 = some (GoError.horizon problem (some codes)) →
      codes.OperationCodes.length ≤ (lastDest h).length) :
    ((∃ result, (createAndSubmit c src sf fuel h seq pairs).1 = Except.ok result ∧
        result.Sublist pairs) ∨
      (createAndSubmit c src sf fuel h seq pairs).1 = Except.error Fault.outOfFuel) ∧
    ∃ evs : List Event, (createAndSubmit c src sf fuel h seq pairs).2 = h ++ evs ∧
      (∀ a, (attempts evs).head? = some a → a.dest = pairs) ∧
      List.Chain' (fun a b => b.dest.Sublist a.dest) (attempts evs) := by
  obtain ⟨evs, hevs, ht⟩ := createAndSubmit_trace c src sf fuel h seq pairs
  obtain ⟨hsub, hchain⟩ := runTrace_sublist seq pairs evs _ ht
  refine ⟨?_, evs, hevs, fun a ha => (runTrace_attempts_head seq pairs evs _ ht a ha).2, hchain⟩
  cases hr : (createAndSubmit c src sf fuel h seq pairs).1 with
  | ok result => exact Or.inl ⟨result, rfl, hsub result hr⟩
  | error f =>
    right
    rw [createAndSubmit_fault_outOfFuel c src sf hcodes fuel h seq pairs f hr]

theorem bobFailsClient_codes_bounded (h : History) (xdr : String) (problem : Problem)
    (codes : TransactionResultCodes)
    (herr : (bobFailsClient.SubmitTransaction h xdr).2 =
      some (GoError.horizon problem (some codes))) :
    codes.OperationCodes.length ≤ (lastDest h).length := by
  by_cases hany : (lastDest h).any (fun p => decide (p = bob)) = true
  · simp only [bobFailsClient, hany, if_true, rejection, Option.some.injEq,
      GoError.horizon.injEq] at herr
    obtain ⟨-, hc⟩ := herr
    rw [← hc]
    simp
  · simp only [bobFailsClient, hany] at herr
    simp at herr

/-- C12 on three entities of which one always fails: the run returns the first
and the third, a sublist of the three. -/
theorem createAndSubmit_survivors_sublist_witness :
    (createAndSubmit bobFailsClient plainCreator 1 4 [] 5 demoPairs).1 =
      Except.ok [alice, carol] ∧
    ((∃ result, (createAndSubmit bobFailsClient plainCreator 1 4 [] 5 demoPairs).1 =
          Except.ok result ∧ result.Sublist demoPairs) ∨
      (createAndSubmit bobFailsClient plainCreator 1 4 [] 5 demoPairs).1 =
        Except.error Fault.outOfFuel) ∧
    ∃ evs : List Event, (createAndSubmit bobFailsClient plainCreator 1 4 [] 5 demoPairs).2 =
        [] ++ evs ∧
      (∀ a, (attempts evs).head? = some a → a.dest = demoPairs) ∧
      List.Chain' (fun a b => b.dest.Sublist a.dest) (attempts evs) :=
  ⟨by rfl,
    createAndSubmit_survivors_sublist bobFailsClient plainCreator 1 4 [] 5 demoPairs
      bobFailsClient_codes_bounded⟩

end StellarCreatePool
